import Mathlib

/-!
# Verification of the World Topology Synthesis & Balancing Engine

A shallow embedding in Lean 4 of the graph algorithms of the `llm-mud`
repository (`llm_mud/gen/graph.py`, `llm_mud/gen/cycle_finder.py`,
`llm_mud/gen/create_world.py`, `mad/gen/data_model.py`,
`mad/gen/world_merger_agent.py`, `mad/gen/world_improver_agent.py`),
together with theorems settling the specification's claims about them.

Python dictionaries are embedded as insertion-ordered association lists
(`Dict α := List (String × α)`); Python sets returned by the code are
represented by the lists the embedding computes, with set-like statements
phrased via membership.  External LLM "Generator" calls and `random`
choices are parameters of the embedded functions.
-/

set_option maxRecDepth 8192

/-- Insertion-ordered association list standing in for a Python `dict`. -/
abbrev Dict (α : Type) : Type := List (String × α)

namespace Dict

/-- First-match lookup, like `d[k]` / `d.get(k)`. -/
def dlookup {α : Type} : Dict α → String → Option α
  | [], _ => none
  | (k, v) :: rest, key => if k = key then some v else dlookup rest key

/-- Lookup with a default value, like `d.get(k, dflt)`. -/
def dgetD {α : Type} (d : Dict α) (key : String) (dflt : α) : α :=
  (dlookup d key).getD dflt

/-- Key membership test, like `k in d`. -/
def dmem {α : Type} (d : Dict α) (key : String) : Bool :=
  (dlookup d key).isSome

/-- `d[k] = v`: replaces the value at an existing key in place, otherwise
appends the new entry at the end, mirroring Python dict insertion order. -/
def dset {α : Type} : Dict α → String → α → Dict α
  | [], key, v => [(key, v)]
  | (k, w) :: rest, key, v =>
    if k = key then (key, v) :: rest else (k, w) :: dset rest key v

/-- `del d[k]`. -/
def ddel {α : Type} (d : Dict α) (key : String) : Dict α :=
  d.filter (fun p => p.1 ≠ key)

/-- `list(d.keys())`. -/
def dkeys {α : Type} (d : Dict α) : List String :=
  d.map Prod.fst

end Dict

open Dict

/-! ## The growth-phase `Edge` record

Modelled from the spec: the class `Edge` of `llm_mud/gen/data_model.py` is
absent from the sources (only its users are present).  The spec describes it
as `(source_id, source_title, destination_id, destination_title, direction,
return_direction)` "with a defined reverse operation that swaps
source/destination and direction/return_direction". -/
structure Edge where
  source_id : String
  source_title : String
  destination_id : String
  destination_title : String
  direction : String
  return_direction : String
deriving DecidableEq, Repr

/-- Modelled from the spec: the reverse operation of the missing `Edge`
class swaps source/destination and direction/return_direction. -/
def Edge.get_reverse_edge (e : Edge) : Edge :=
  { source_id := e.destination_id
    source_title := e.destination_title
    destination_id := e.source_id
    destination_title := e.source_title
    direction := e.return_direction
    return_direction := e.direction }

/-! ## `llm_mud/gen/cycle_finder.py` -/

/-- Integer 3-vectors embedding the float `numpy` vectors of
`cycle_finder.py`; every vector in play has integer components, so float
equality there coincides with integer equality here. -/
abbrev Vec3 : Type := Int × Int × Int

def vadd (a b : Vec3) : Vec3 := (a.1 + b.1, a.2.1 + b.2.1, a.2.2 + b.2.2)

def vneg (a : Vec3) : Vec3 := (-a.1, -a.2.1, -a.2.2)

/-- `DIRECTION_VECTORS`, in its Python insertion order. -/
def DIRECTION_VECTORS : List (String × Vec3) :=
  [("north", (1, 0, 0)), ("south", (-1, 0, 0)),
   ("east", (0, 1, 0)), ("west", (0, -1, 0)),
   ("northeast", (1, 1, 0)), ("northwest", (1, -1, 0)),
   ("southeast", (-1, 1, 0)), ("southwest", (-1, -1, 0)),
   ("up", (0, 0, 1)), ("down", (0, 0, -1))]

/-- ASCII lowering of one character, embedding `str.lower()` on the ASCII
direction names the code feeds it. -/
def asciiLower (c : Char) : Char :=
  if 'A' ≤ c ∧ c ≤ 'Z' then Char.ofNat (c.toNat + 32) else c

/-- `s.lower()` on ASCII strings. -/
def strLower (s : String) : String := ⟨s.data.map asciiLower⟩

/-- `get_edge_vector`: direction lowered, unknown directions map to
`(0, 0, 100)`. -/
def get_edge_vector (e : Edge) : Vec3 :=
  (((DIRECTION_VECTORS : List (String × Vec3)).lookup (strLower e.direction)).getD (0, 0, 100))

/-- One `adj_list[key].append(entry)` step of `build_adjacency_list`,
with `defaultdict` creating the key at the end on first touch. -/
def adjAppend (d : Dict (List (Edge × Vec3))) (key : String) (entry : Edge × Vec3) :
    Dict (List (Edge × Vec3)) :=
  if dmem d key then dset d key (dgetD d key [] ++ [entry]) else d ++ [(key, [entry])]

/-- `build_adjacency_list`: each edge contributes itself at its source and
its synthetic reverse at its destination. -/
def build_adjacency_list (edges : List Edge) : Dict (List (Edge × Vec3)) :=
  edges.foldl
    (fun adj e =>
      let adj := adjAppend adj e.source_id (e, get_edge_vector e)
      let r := e.get_reverse_edge
      adjAppend adj r.source_id (r, get_edge_vector r))
    []

/-- A discovered path together with its accumulated displacement. -/
abbrev PathInfo : Type := List Edge × Vec3

/-- The recursive `dfs` of `find_paths_from_node`.  The mutable
`used_edges` / `visited_nodes` sets with backtracking become extra
arguments extended only along the recursive call.  `fuel` dominates the
recursion depth; with `fuel > max_length` it never runs out before the
source's own `len(current_edges) >= max_length` stop. -/
def cycleDfs (adj : Dict (List (Edge × Vec3))) (minLength maxLength : Nat) :
    Nat → String → List Edge → List (String × String) → List String → Vec3 → List PathInfo
  | 0, _, _, _, _, _ => []
  | fuel + 1, current, currentEdges, usedEdges, visitedNodes, disp =>
    let base : List PathInfo :=
      if minLength ≤ currentEdges.length then [(currentEdges, disp)] else []
    if maxLength ≤ currentEdges.length then base
    else
      base ++ (dgetD adj current []).foldl
        (fun acc p =>
          let e := p.1
          let key := (e.source_id, e.destination_id)
          if key ∈ usedEdges ∨ (e.destination_id, e.source_id) ∈ usedEdges ∨
              e.destination_id ∈ visitedNodes then acc
          else
            acc ++ cycleDfs adj minLength maxLength fuel e.destination_id
              (currentEdges ++ [e]) (usedEdges ++ [key])
              (visitedNodes ++ [e.destination_id]) (vadd disp p.2))
        []

/-- `find_paths_from_node` with its default `min_length=2`, `max_length=4`. -/
def find_paths_from_node (start : String) (adj : Dict (List (Edge × Vec3))) :
    List PathInfo :=
  cycleDfs adj 2 4 6 start [] [] [start] (0, 0, 0)

/-- The main loop of `suggest_cycle` over the collected paths: skip paths
whose endpoints are already connected, have degree ≥ 4, or coincide;
return the closing edge of the first path whose displacement is the
negation of a canonical direction vector. -/
def suggestCycleLoop (adj : Dict (List (Edge × Vec3))) : List PathInfo → Option Edge
  | [] => none
  | (pathEdges, disp) :: rest =>
    match pathEdges with
    | [] => suggestCycleLoop adj rest
    | e0 :: _ =>
      let startRoom := e0.source_id
      let startRoomTitle := e0.source_title
      let elast := pathEdges.getLastD e0
      let endRoom := elast.destination_id
      let endRoomTitle := elast.destination_title
      if (dgetD adj startRoom []).any (fun x => x.1.destination_id = endRoom) then
        suggestCycleLoop adj rest
      else if 4 ≤ (dgetD adj startRoom []).length ∨ 4 ≤ (dgetD adj endRoom []).length then
        suggestCycleLoop adj rest
      else if startRoom = endRoom then
        suggestCycleLoop adj rest
      else
        match DIRECTION_VECTORS.find? (fun dv => disp = vneg dv.2) with
        | some (dir, vector) =>
          some
            { source_id := endRoom
              source_title := endRoomTitle
              destination_id := startRoom
              destination_title := startRoomTitle
              direction := dir
              return_direction :=
                ((DIRECTION_VECTORS.find? (fun dv => dv.2 = vector)).map Prod.fst).getD "" }
        | none => suggestCycleLoop adj rest

/-- `suggest_cycle`: gather all paths of length 2–4 from every node (in
adjacency-dict key order) and return the first closable cycle's edge. -/
def suggest_cycle (edges : List Edge) : Option Edge :=
  let adj := build_adjacency_list edges
  let allPaths := (dkeys adj).foldl (fun acc s => acc ++ find_paths_from_node s adj) []
  suggestCycleLoop adj allPaths

/-- The synthetic 3-edge path of the cycle-closer test scenario: a
north/north/south walk whose vector sum is `(1, 0, 0)` between two
unconnected endpoints of degree 1. -/
def cyclePathEdges : List Edge :=
  [{ source_id := "a", source_title := "A", destination_id := "b",
     destination_title := "B", direction := "north", return_direction := "south" },
   { source_id := "b", source_title := "B", destination_id := "c",
     destination_title := "C", direction := "north", return_direction := "south" },
   { source_id := "c", source_title := "C", destination_id := "d",
     destination_title := "D", direction := "south", return_direction := "north" }]

/-! ## `llm_mud/gen/graph.py` -/

/-- Results of `get_subgraph`.  The Python sets `fully_contained_ids` and
`boundary_ids` are represented by the lists the embedding computes; their
set character is recovered through membership statements. -/
structure SubgraphResult where
  edges : List Edge
  fully_contained_ids : List String
  boundary_ids : List String
deriving DecidableEq, Repr

/-- `defaultdict(int)`-style `d[k] += 1`: increment in place, or append a
fresh count of 1 at the end of the dict. -/
def dincr : Dict Nat → String → Dict Nat
  | [], k => [(k, 1)]
  | (k', v) :: rest, k =>
    if k' = k then (k', v + 1) :: rest else (k', v) :: dincr rest k

/-- The `id_counts` accumulation of `get_random_room_id`: every edge
increments the count of its source and of its destination. -/
def id_counts (edges : List Edge) : Dict Nat :=
  edges.foldl (fun d e => dincr (dincr d e.source_id) e.destination_id) []

/-- The filtered pool `valid_room_ids` of `get_random_room_id`: ids whose
count is strictly below `max_exits`. -/
def valid_room_ids (edges : List Edge) (max_exits : Nat) : List String :=
  (((id_counts edges).filter (fun p => p.2 < max_exits)).map Prod.fst)

/-- `get_random_room_id`, with `random.choice` embedded as selection of the
`k`-th element of the pool; the empty pool (where `random.choice` raises
`IndexError`) yields `none`. -/
def get_random_room_id (edges : List Edge) (max_exits : Nat) (k : Nat) : Option String :=
  (valid_room_ids edges max_exits).get? k

/-- The spec's `pickGrowthPivot(edges, maxExits)`, realised in
`create_world.py` as `get_random_room_id(edges, max_exits - 1)`. -/
def pickGrowthPivot (edges : List Edge) (maxExits : Nat) (k : Nat) : Option String :=
  get_random_room_id edges (maxExits - 1) k

/-- The degree of an id in an edge list, counting every appearance as a
source and every appearance as a destination. -/
def edgeDegree (edges : List Edge) (id : String) : Nat :=
  edges.countP (fun e => decide (e.source_id = id)) +
    edges.countP (fun e => decide (e.destination_id = id))

/-- `d.setdefault(k, []).append(v)` / `defaultdict(list)` push. -/
def dpush {α : Type} (d : Dict (List α)) (key : String) (v : α) : Dict (List α) :=
  if dmem d key then dset d key (dgetD d key [] ++ [v]) else d ++ [(key, [v])]

/-- All node ids of the graph `G` built by `get_subgraph`, in first-touch
order without repetition. -/
def nodesOf (edges : List Edge) : List String :=
  (edges.foldl (fun acc e => acc ++ [e.source_id, e.destination_id]) []).dedup

/-- Undirected adjacency of the graph `G` of `get_subgraph` (each edge is
inserted in both directions). -/
def adjacentIn (edges : List Edge) (a b : String) : Bool :=
  edges.any (fun e =>
    decide ((e.source_id = a ∧ e.destination_id = b) ∨
      (e.source_id = b ∧ e.destination_id = a)))

/-- The node set of `nx.ego_graph(G, start, radius=n)`: breadth-first
closure, one hop per step, up to `n` hops. -/
def reachableNodes (edges : List Edge) (start : String) : Nat → List String
  | 0 => [start]
  | n + 1 =>
    let prev := reachableNodes edges start n
    prev ++ (nodesOf edges).filter
      (fun m => decide (m ∉ prev) && prev.any (fun p => adjacentIn edges p m))

/-- The `node_edges` mapping of `get_subgraph`: each edge is appended to the
lists of both of its endpoints. -/
def node_edges_dict (edges : List Edge) : Dict (List Edge) :=
  edges.foldl (fun d e => dpush (dpush d e.source_id e) e.destination_id e) []

/-- `get_subgraph(edges, room_id, max_steps)`. -/
def get_subgraph (edges : List Edge) (room_id : String) (max_steps : Nat) : SubgraphResult :=
  let reach := reachableNodes edges room_id max_steps
  let subgraph_edges := edges.filter
    (fun e => decide (e.source_id ∈ reach ∧ e.destination_id ∈ reach))
  let fully := reach.filter (fun n =>
    (dgetD (node_edges_dict edges) n []).all
      (fun e => decide (e.destination_id ∈ reach ∧ e.source_id ∈ reach)))
  let boundary := reach.filter (fun n =>
    ! (dgetD (node_edges_dict edges) n []).all
      (fun e => decide (e.destination_id ∈ reach ∧ e.source_id ∈ reach)))
  { edges := subgraph_edges, fully_contained_ids := fully, boundary_ids := boundary }

/-- The 5-node line graph `A-B-C-D-E` of the subgraph-classification test. -/
def lineEdges : List Edge :=
  [{ source_id := "A", source_title := "A", destination_id := "B",
     destination_title := "B", direction := "north", return_direction := "south" },
   { source_id := "B", source_title := "B", destination_id := "C",
     destination_title := "C", direction := "north", return_direction := "south" },
   { source_id := "C", source_title := "C", destination_id := "D",
     destination_title := "D", direction := "north", return_direction := "south" },
   { source_id := "D", source_title := "D", destination_id := "E",
     destination_title := "E", direction := "north", return_direction := "south" }]

/-! ## `llm_mud/gen/create_world.py` -/

/-- `max_exits` of `create_world.py`. -/
def max_exits : Nat := 4

/-- The validation core of `expand_map`.  The randomly drawn pivot
(`get_random_room_id`) and the proposed edge returned by the external
`add_edge` agent are parameters. -/
def expand_map (edges : List Edge) (room_id : String) (new_edge : Edge) : Option Edge :=
  let subgraph := get_subgraph edges room_id 2
  let is_duplicate := edges.any (fun e =>
    decide ((e.source_id = new_edge.source_id ∧ e.direction = new_edge.direction) ∨
      (e.destination_id = new_edge.source_id ∧ e.return_direction = new_edge.direction)))
  if is_duplicate then none
  else
    let exits := edges.countP (fun e => decide (e.destination_id = new_edge.destination_id))
    if max_exits < exits then none
    else if new_edge.destination_id ∈ subgraph.boundary_ids then none
    else some new_edge

/-- A star of five edges leaving `D`: `D` has five incident edges, all with
`D` as their source, none with `D` as their destination. -/
def starEdges : List Edge :=
  [{ source_id := "D", source_title := "D", destination_id := "x1",
     destination_title := "X1", direction := "north", return_direction := "south" },
   { source_id := "D", source_title := "D", destination_id := "x2",
     destination_title := "X2", direction := "east", return_direction := "west" },
   { source_id := "D", source_title := "D", destination_id := "x3",
     destination_title := "X3", direction := "south", return_direction := "north" },
   { source_id := "D", source_title := "D", destination_id := "x4",
     destination_title := "X4", direction := "west", return_direction := "east" },
   { source_id := "D", source_title := "D", destination_id := "x5",
     destination_title := "X5", direction := "up", return_direction := "down" }]

/-- A proposed edge from `x1` into the saturated hub `D`. -/
def starProposal : Edge :=
  { source_id := "x1", source_title := "X1", destination_id := "D",
    destination_title := "D", direction := "northeast", return_direction := "southwest" }

/-! ## `mad/gen/data_model.py` -/

structure LocationDescription where
  id : String
  is_key : Bool
  title : String
  brief_description : String
  long_description : String
deriving DecidableEq, Repr

structure LocationExit where
  destination_id : String
  exit_description : String
  exit_name : String
deriving DecidableEq, Repr

structure WorldDescription where
  title : String
  description : String
  story_titles : List String
deriving DecidableEq, Repr

structure CharacterDescription where
  id : String
  name : String
  appearance : String
  description : String
deriving DecidableEq, Repr

structure WorldDesign where
  world_description : WorldDescription
  locations : List LocationDescription
  characters : List CharacterDescription
  character_locations : Dict (List String)
  location_connections : Dict (List String)
  location_exits : Dict (List LocationExit)
  starting_location_id : String
deriving DecidableEq, Repr

namespace WorldDesign

/-- `WorldDesign.find_location_by_id`: first location with the given id. -/
def find_location_by_id (d : WorldDesign) (location_id : String) : Option LocationDescription :=
  d.locations.find? (fun loc => loc.id == location_id)

/-- `WorldDesign.add_location`.  The mutating method that raises on a
duplicate id is embedded as returning the post-state together with an
optional error message; on error the state equals the input design, since
the Python method raises before any mutation. -/
def add_location (d : WorldDesign) (location : LocationDescription) :
    WorldDesign × Option String :=
  if d.locations.any (fun loc => loc.id == location.id) then
    (d, some ("Location with ID " ++ location.id ++ " already exists in the world"))
  else
    ({ d with
        locations := d.locations ++ [location]
        location_exits := dset d.location_exits location.id []
        location_connections := dset d.location_connections location.id [] },
      none)

/-- `location.id = new_id` on the object returned by `find_location_by_id`:
the first location whose id is `old` gets the id `new`. -/
def renameFirstLocation : List LocationDescription → String → String → List LocationDescription
  | [], _, _ => []
  | loc :: rest, old, new =>
    if loc.id = old then { loc with id := new } :: rest
    else loc :: renameFirstLocation rest old new

/-- `WorldDesign.rename_location_id`, returning the post-state and the
Boolean result. -/
def rename_location_id (d : WorldDesign) (old_id new_id : String) : WorldDesign × Bool :=
  match d.find_location_by_id old_id with
  | none => (d, false)
  | some _ =>
    let locations := renameFirstLocation d.locations old_id new_id
    let location_exits :=
      match dlookup d.location_exits old_id with
      | some v => ddel (dset d.location_exits new_id v) old_id
      | none => d.location_exits
    let location_connections :=
      match dlookup d.location_connections old_id with
      | some v => ddel (dset d.location_connections new_id v) old_id
      | none => d.location_connections
    let location_connections := location_connections.map (fun p =>
      if old_id ∈ p.2 then (p.1, p.2.filter (fun x => x ≠ old_id) ++ [new_id]) else p)
    let character_locations := d.character_locations.map (fun p =>
      (p.1, p.2.map (fun loc_id => if loc_id = old_id then new_id else loc_id)))
    let starting_location_id :=
      if d.starting_location_id = old_id then new_id else d.starting_location_id
    ({ d with
        locations := locations
        location_exits := location_exits
        location_connections := location_connections
        character_locations := character_locations
        starting_location_id := starting_location_id },
      true)

end WorldDesign

/-- A small concrete design used to instantiate the data-model theorems. -/
def sampleDesign : WorldDesign :=
  { world_description := { title := "W", description := "world", story_titles := [] }
    locations :=
      [{ id := "home", is_key := true, title := "Home",
         brief_description := "b", long_description := "l" },
       { id := "cave", is_key := false, title := "Cave",
         brief_description := "b", long_description := "l" }]
    characters := [{ id := "bob", name := "Bob", appearance := "", description := "" }]
    character_locations := [("bob", ["home"])]
    location_connections := [("home", ["cave"]), ("cave", ["home"])]
    location_exits := [("home", []), ("cave", [])]
    starting_location_id := "home" }

/-- A fresh location not present in `sampleDesign`. -/
def sampleNewLocation : LocationDescription :=
  { id := "lake", is_key := false, title := "Lake",
    brief_description := "b", long_description := "l" }

/-! ## `mad/gen/world_merger_agent.py` -/

/-- The validation tail of `find_merge_points`.  The BridgeProposer agent
response is the `merge_points` parameter; the `exit()` call on zero valid
pairs is embedded as an error result. -/
def find_merge_points (design1 design2 : WorldDesign)
    (merge_points : List (String × String)) : Except String (List (String × String)) :=
  let design1_location_ids : List String := design1.locations.map (fun loc => loc.id)
  let design2_location_ids : List String := design2.locations.map (fun loc => loc.id)
  let valid_merge_points := merge_points.filter (fun p =>
    decide (p.1 ∈ design1_location_ids ∧ p.2 ∈ design2_location_ids))
  if valid_merge_points.isEmpty then .error "FATAL ERROR: Could not merge worlds!"
  else .ok valid_merge_points

/-- A second concrete design, disjoint from `sampleDesign`. -/
def sampleDesign2 : WorldDesign :=
  { world_description := { title := "W2", description := "world2", story_titles := [] }
    locations :=
      [{ id := "keep", is_key := true, title := "Keep",
         brief_description := "b", long_description := "l" }]
    characters := []
    character_locations := []
    location_connections := [("keep", [])]
    location_exits := [("keep", [])]
    starting_location_id := "keep" }

/-! ## `mad/gen/world_improver_agent.py`

The improver imports `StoryWorldComponents`, `LocationImprovementPlan` and
`LocationDescriptionWithExits` from a version of `mad/gen/data_model.py`
that is absent from the sources; those three records are modelled from the
spec below, with exactly the fields the improver reads and writes.  The
external SplitProposer agent of `improve_single_location` is a parameter
(`plan`), and the two `random.choice(new_location_ids)` draws are
parameters `chooseMiss`/`chooseRe`, functions from the item being placed
and the candidate pool to the drawn pool element. -/

namespace Improver

/-- Modelled from the spec: the improver-era `LocationDescription` of the
missing `mad/gen/data_model.py` version; `world_improver_agent.py`
constructs it from exactly these four fields. -/
structure LocationDescription where
  id : String
  title : String
  brief_description : String
  long_description : String
deriving DecidableEq, Repr

/-- Modelled from the spec: `LocationDescriptionWithExits` of the missing
data-model version — a location together with its descriptive exits. -/
structure LocationDescriptionWithExits where
  id : String
  title : String
  brief_description : String
  long_description : String
  exits : List LocationExit
deriving DecidableEq, Repr

/-- Modelled from the spec: `StoryWorldComponents` of the missing
data-model version; the improver reads and writes its `locations` and
`location_connections` and passes `characters` / `character_locations`
through. -/
structure StoryWorldComponents where
  locations : List LocationDescription
  location_connections : Dict (List String)
  characters : List CharacterDescription
  character_locations : Dict (List String)
deriving DecidableEq, Repr

/-- Modelled from the spec: `LocationImprovementPlan`, the SplitProposer
response — replacement locations plus an updated connection map. -/
structure LocationImprovementPlan where
  new_locations : List LocationDescription
  updated_connections : Dict (List String)
deriving DecidableEq, Repr

/-- Modelled from the spec: the improver-era `WorldDesign` whose locations
carry their exits inline, as used by `improve_world_design`. -/
structure WorldDesign where
  locations : List LocationDescriptionWithExits
  characters : List CharacterDescription
  character_locations : Dict (List String)
  starting_location_id : String
deriving DecidableEq, Repr

/-- `find_location_by_id` of `world_improver_agent.py`. -/
def find_location_by_id (story_components : StoryWorldComponents)
    (location_id : String) : Option LocationDescription :=
  story_components.locations.find? (fun loc => loc.id == location_id)

/-- `if k not in conns: conns[k] = []` — entry initialisation. -/
def dinit (conns : Dict (List String)) (k : String) : Dict (List String) :=
  if dmem conns k then conns else conns ++ [(k, [])]

/-- `if v not in conns[k]: conns[k].append(v)` — one directed attachment. -/
def dconnect (conns : Dict (List String)) (k v : String) : Dict (List String) :=
  if v ∈ dgetD conns k [] then conns
  else dset conns k (dgetD conns k [] ++ [v])

/-- The connection-map body of `ensure_bidirectional_connections`:
initialise missing entries, then append each endpoint to the other
endpoint missing it, in source order. -/
def ensureBidi (conns : Dict (List String)) (source_id dest_id : String) :
    Dict (List String) :=
  dconnect (dconnect (dinit (dinit conns source_id) dest_id) source_id dest_id)
    dest_id source_id

/-- `ensure_bidirectional_connections`. -/
def ensure_bidirectional_connections (components : StoryWorldComponents)
    (source_id dest_id : String) : StoryWorldComponents :=
  { components with
      location_connections := ensureBidi components.location_connections source_id dest_id }

/-- `remove_old_location_and_connections`: drop the location, delete its
own connection entry, strip the first occurrence of its id from every
other entry (`list.remove`), and record which entries had one. -/
def remove_old_location_and_connections (components : StoryWorldComponents)
    (location_id : String) : StoryWorldComponents × List String :=
  let locations := components.locations.filter (fun loc => loc.id ≠ location_id)
  let conns :=
    if dmem components.location_connections location_id then
      ddel components.location_connections location_id
    else components.location_connections
  let locations_connecting_to_old :=
    (conns.filter (fun p => decide (location_id ∈ p.2))).map Prod.fst
  let conns := conns.map (fun p =>
    if location_id ∈ p.2 then (p.1, p.2.erase location_id) else p)
  ({ components with locations := locations, location_connections := conns },
    locations_connecting_to_old)

/-- Membership in the `planned_connections` set of
`handle_missing_connections`: a connection is planned if it is an outgoing
destination of some new location, or an incoming source (a non-new key of
the plan pointing at some new location). -/
def plannedConn (new_location_ids : List String) (u : Dict (List String))
    (conn : String) : Prop :=
  (∃ sid ∈ new_location_ids, conn ∈ dgetD u sid []) ∨
  (∃ p ∈ u, p.1 = conn ∧ p.1 ∉ new_location_ids ∧ ∃ d ∈ p.2, d ∈ new_location_ids)

instance (new_location_ids : List String) (u : Dict (List String)) (conn : String) :
    Decidable (plannedConn new_location_ids u conn) := by
  unfold plannedConn
  infer_instance

/-- The repair step of `handle_missing_connections` for one missing
connection: draw a new location and append the connection to its entry. -/
def assignMissing (new_location_ids : List String)
    (chooseMiss : String → List String → String)
    (u : Dict (List String)) (conn : String) : Dict (List String) :=
  let random_loc := chooseMiss conn new_location_ids
  dconnect (dinit u random_loc) random_loc conn

/-- `handle_missing_connections`. -/
def handle_missing_connections (new_locations : List LocationDescription)
    (updated_connections : Dict (List String))
    (original_connections : List String)
    (chooseMiss : String → List String → String) : Dict (List String) :=
  let new_location_ids : List String := new_locations.map (fun loc => loc.id)
  let missing_connections := original_connections.filter
    (fun conn => decide (¬ plannedConn new_location_ids updated_connections conn))
  if missing_connections.isEmpty then updated_connections
  else
    let u := new_location_ids.foldl dinit updated_connections
    missing_connections.foldl (assignMissing new_location_ids chooseMiss) u

/-- The merge-point search of the reconnection loop of
`add_new_locations_and_connections`: the first new location the plan
already connects to `loc_id`, in either direction. -/
def plannedPartner (new_location_ids : List String) (u : Dict (List String))
    (loc_id : String) : Option String :=
  new_location_ids.find? (fun new_loc_id =>
    (dmem u new_loc_id && decide (loc_id ∈ dgetD u new_loc_id [])) ||
    (dmem u loc_id && decide (new_loc_id ∈ dgetD u loc_id [])))

/-- The interconnection step: with exactly two new locations, connect
them bidirectionally. -/
def interconnectTwo (conns : Dict (List String)) (new_location_ids : List String) :
    Dict (List String) :=
  match new_location_ids with
  | [a, b] => ensureBidi conns a b
  | _ => conns

/-- The target of the reconnection loop for one orphaned neighbor: the new
location the plan already connects it to, or a random draw among the new
locations. -/
def partnerOrRandom (new_location_ids : List String) (u : Dict (List String))
    (chooseRe : String → List String → String) (loc_id : String) : String :=
  match plannedPartner new_location_ids u loc_id with
  | some nid => nid
  | none => chooseRe loc_id new_location_ids

/-- `add_new_locations_and_connections`. -/
def add_new_locations_and_connections (components : StoryWorldComponents)
    (new_locations : List LocationDescription)
    (updated_connections : Dict (List String))
    (locations_connecting_to_old : List String)
    (chooseRe : String → List String → String) : StoryWorldComponents :=
  let locations := components.locations ++ new_locations
  let conns := updated_connections.foldl
    (fun c p => dset c p.1 p.2) components.location_connections
  let new_location_ids : List String := new_locations.map (fun loc => loc.id)
  let conns := interconnectTwo conns new_location_ids
  let conns := locations_connecting_to_old.foldl
    (fun c loc_id =>
      ensureBidi c
        (partnerOrRandom new_location_ids updated_connections chooseRe loc_id) loc_id)
    conns
  let conns := (dkeys conns).foldl
    (fun c source_id =>
      (dgetD c source_id []).foldl (fun c2 dest_id => ensureBidi c2 source_id dest_id) c)
    conns
  { components with locations := locations, location_connections := conns }

/-- `improve_single_location`, with the SplitProposer response as the
`plan` parameter: a location within the degree bound yields an empty plan,
a missing location raises (embedded as an error). -/
def improve_single_location (story_components : StoryWorldComponents)
    (location_id : String) (plan : LocationImprovementPlan) :
    Except String LocationImprovementPlan :=
  let location_connections := dgetD story_components.location_connections location_id []
  if location_connections.length ≤ 4 then
    .ok { new_locations := [], updated_connections := [] }
  else
    match find_location_by_id story_components location_id with
    | none => .error ("Location with ID " ++ location_id ++ " not found in world components")
    | some _ => .ok plan

/-- The application tail of `improve_single_location_and_apply`: repoint
the starting location, remove the old location, repair the plan, and add
the new locations and connections. -/
def apply_improvement_plan (story_components : StoryWorldComponents)
    (location_id : String) (starting_location_id : Option String)
    (plan : LocationImprovementPlan)
    (chooseMiss chooseRe : String → List String → String) :
    StoryWorldComponents × Option String :=
  match plan.new_locations with
  | [] => (story_components, starting_location_id)
  | first :: _ =>
    let updated_starting_id :=
      if starting_location_id = some location_id then some first.id
      else starting_location_id
    let removed := remove_old_location_and_connections story_components location_id
    let original_connections := dgetD story_components.location_connections location_id []
    let updated_connections := handle_missing_connections plan.new_locations
      plan.updated_connections original_connections chooseMiss
    let improved := add_new_locations_and_connections removed.1 plan.new_locations
      updated_connections removed.2 chooseRe
    (improved, updated_starting_id)

/-- `improve_single_location_and_apply`. -/
def improve_single_location_and_apply (story_components : StoryWorldComponents)
    (location_id : String) (starting_location_id : Option String)
    (plan : LocationImprovementPlan)
    (chooseMiss chooseRe : String → List String → String) :
    Except String (StoryWorldComponents × Option String) :=
  match improve_single_location story_components location_id plan with
  | .error e => .error e
  | .ok location_plan =>
    if location_plan.new_locations.isEmpty && location_plan.updated_connections.isEmpty then
      .ok (story_components, starting_location_id)
    else if location_plan.new_locations.length ≠ 2 then
      .ok (story_components, starting_location_id)
    else
      .ok (apply_improvement_plan story_components location_id starting_location_id
        location_plan chooseMiss chooseRe)

/-- The overcrowded-locations sweep of one `improve_world_design`
iteration: every connection entry longer than 4, with its length. -/
def overcrowdedOf (story_components : StoryWorldComponents) : List (String × Nat) :=
  story_components.location_connections.foldl
    (fun acc p => if 4 < p.2.length then acc ++ [(p.1, p.2.length)] else acc) []

/-- The head of the stable descending sort by connection count: the first
entry carrying the maximal count. -/
def pickMostOvercrowded (l : List (String × Nat)) : Option (String × Nat) :=
  l.foldl
    (fun best p =>
      match best with
      | none => some p
      | some b => if b.2 < p.2 then some p else some b)
    none

/-- Outcome of the improvement loop: early success, iteration-cap
exhaustion (a partial result), or the propagated missing-location error. -/
inductive ImproveOutcome where
  | success (sc : StoryWorldComponents) (starting : Option String) (iterations : Nat)
  | capped (sc : StoryWorldComponents) (starting : Option String) (iterations : Nat)
  | failed (msg : String)
deriving DecidableEq, Repr

/-- The iteration loop of `improve_world_design`, with `plans` supplying
the SplitProposer response of each iteration and `fuel` the remaining
iteration budget. -/
def improveLoop (plans : Nat → LocationImprovementPlan)
    (chooseMiss chooseRe : String → List String → String) :
    Nat → Nat → StoryWorldComponents → Option String → ImproveOutcome
  | 0, iteration, sc, st => .capped sc st iteration
  | fuel + 1, iteration, sc, st =>
    match pickMostOvercrowded (overcrowdedOf sc) with
    | none => .success sc st iteration
    | some picked =>
      match improve_single_location_and_apply sc picked.1 st (plans iteration)
          chooseMiss chooseRe with
      | .error e => .failed e
      | .ok (sc2, st2) => improveLoop plans chooseMiss chooseRe fuel (iteration + 1) sc2 st2

/-- `max_iterations` of `improve_world_design`. -/
def max_iterations : Nat := 20

/-- `improve_world_design`: build the working `StoryWorldComponents` from
the design (connection entries keyed by location id, holding the exit
destinations) and run the capped repair loop.  The final rebuild of the
exit texts has no bearing on the loop result and is not modelled. -/
def improve_world_design (world_design : WorldDesign)
    (plans : Nat → LocationImprovementPlan)
    (chooseMiss chooseRe : String → List String → String) : ImproveOutcome :=
  let story_components : StoryWorldComponents :=
    { locations := world_design.locations.map (fun loc =>
        { id := loc.id, title := loc.title,
          brief_description := loc.brief_description,
          long_description := loc.long_description })
      location_connections := world_design.locations.map (fun loc =>
        (loc.id, loc.exits.map (fun e => e.destination_id)))
      characters := world_design.characters
      character_locations := world_design.character_locations }
  improveLoop plans chooseMiss chooseRe max_iterations 0 story_components
    (some world_design.starting_location_id)

end Improver

/-- A deterministic stand-in for `random.choice`: always the first pool
element. -/
def chooseHead (item : String) (pool : List String) : String :=
  let _ := item
  pool.headD ""

/-- A location of the improver data model with only an id of note. -/
def impLoc (id : String) : Improver.LocationDescription :=
  { id := id, title := id, brief_description := "b", long_description := "l" }

/-- An overloaded hub: `hub` carries five bidirectional connections. -/
def hubComponents : Improver.StoryWorldComponents :=
  { locations := [impLoc "hub", impLoc "a", impLoc "b", impLoc "c", impLoc "d", impLoc "e"]
    location_connections :=
      [("hub", ["a", "b", "c", "d", "e"]), ("a", ["hub"]), ("b", ["hub"]),
       ("c", ["hub"]), ("d", ["hub"]), ("e", ["hub"])]
    characters := []
    character_locations := [] }

/-- A SplitProposer plan with three replacement locations. -/
def planThree : Improver.LocationImprovementPlan :=
  { new_locations := [impLoc "n1", impLoc "n2", impLoc "n3"]
    updated_connections := [("n1", ["a"])] }

/-- A SplitProposer plan with two replacement locations that attaches the
neighbor `a` to both of them. -/
def planBoth : Improver.LocationImprovementPlan :=
  { new_locations := [impLoc "n1", impLoc "n2"]
    updated_connections := [("n1", ["a", "b", "c"]), ("n2", ["a", "d", "e"])] }

/-- A SplitProposer plan with two replacement locations covering only one
of the five neighbors. -/
def planTwo : Improver.LocationImprovementPlan :=
  { new_locations := [impLoc "n1", impLoc "n2"]
    updated_connections := [("n1", ["a"])] }

/-- An improver-era design whose hub `X` is overloaded with five exits. -/
def ghostDesign : Improver.WorldDesign :=
  { locations :=
      [{ id := "X", title := "X", brief_description := "b", long_description := "l",
         exits := ["a", "b", "c", "d", "e"].map (fun n =>
           { destination_id := n, exit_description := "", exit_name := n }) },
       { id := "a", title := "a", brief_description := "b", long_description := "l",
         exits := [{ destination_id := "X", exit_description := "", exit_name := "x" }] },
       { id := "b", title := "b", brief_description := "b", long_description := "l",
         exits := [{ destination_id := "X", exit_description := "", exit_name := "x" }] },
       { id := "c", title := "c", brief_description := "b", long_description := "l",
         exits := [{ destination_id := "X", exit_description := "", exit_name := "x" }] },
       { id := "d", title := "d", brief_description := "b", long_description := "l",
         exits := [{ destination_id := "X", exit_description := "", exit_name := "x" }] },
       { id := "e", title := "e", brief_description := "b", long_description := "l",
         exits := [{ destination_id := "X", exit_description := "", exit_name := "x" }] }]
    characters := []
    character_locations := []
    starting_location_id := "X" }

/-- A SplitProposer response whose connection map overloads the key
`ghost`, an id that names no location. -/
def ghostPlan : Improver.LocationImprovementPlan :=
  { new_locations := [impLoc "n1", impLoc "n2"]
    updated_connections := [("ghost", ["a", "b", "c", "d", "e", "p", "q"])] }

/-! ## Predicates used by the theorem statements -/

/-- Some edge of the list touches the given id. -/
def edgeMentions (edges : List Edge) (id : String) : Prop :=
  ∃ e ∈ edges, e.source_id = id ∨ e.destination_id = id

instance (edges : List Edge) (id : String) : Decidable (edgeMentions edges id) := by
  unfold edgeMentions
  infer_instance

/-- One connection map extends another entrywise: every member of every
entry (read through lookup-with-default) survives. -/
def DContains (c c2 : Dict (List String)) : Prop :=
  ∀ j x, x ∈ dgetD c j [] → x ∈ dgetD c2 j []

/-- A connection is attached to at least one of the new locations in the
given connection map: it appears in the entry of a new location, or a new
location appears in its own entry. -/
def attachedToNew (conns : Dict (List String)) (new_ids : List String)
    (conn : String) : Prop :=
  ∃ nid ∈ new_ids, conn ∈ dgetD conns nid [] ∨ nid ∈ dgetD conns conn []

/-- The renamed id has vanished from every enumerable place of a design:
location ids, connection-map keys and entries, exit-map keys,
character-location lists and the starting location. -/
def oldIdPurged (d : WorldDesign) (old : String) : Prop :=
  (∀ l ∈ d.locations, l.id ≠ old) ∧
  dlookup d.location_connections old = none ∧
  dlookup d.location_exits old = none ∧
  (∀ p ∈ d.location_connections, old ∉ p.2) ∧
  (∀ p ∈ d.character_locations, old ∉ p.2) ∧
  d.starting_location_id ≠ old

/-- The components produced by splitting the hub of `hubComponents` with
the plan that attaches `a` to both replacement locations. -/
def planBothResult : Improver.StoryWorldComponents :=
  (Improver.apply_improvement_plan hubComponents "hub" none planBoth
    chooseHead chooseHead).1


/-! ## Association-list lemmas -/

theorem dkeys_nil {α : Type} : dkeys ([] : Dict α) = [] := rfl

theorem dkeys_cons {α : Type} (a : String) (b : α) (rest : Dict α) :
    dkeys ((a, b) :: rest) = a :: dkeys rest := rfl

theorem dlookup_dset_self {α : Type} (d : Dict α) (k : String) (v : α) :
    dlookup (dset d k v) k = some v := by
  induction d with
  | nil => simp [dset, dlookup]
  | cons p rest ih =>
    obtain ⟨a, b⟩ := p
    by_cases h : a = k
    · simp [dset, h, dlookup]
    · simp [dset, h, dlookup, ih]

theorem dlookup_dset_ne {α : Type} (d : Dict α) (k j : String) (v : α) (h : j ≠ k) :
    dlookup (dset d k v) j = dlookup d j := by
  induction d with
  | nil =>
    simp only [dset, dlookup]
    rw [if_neg (fun hh => h hh.symm)]
  | cons p rest ih =>
    obtain ⟨a, b⟩ := p
    by_cases hk : a = k
    · subst hk
      simp only [dset, if_pos rfl, dlookup]
      rw [if_neg (fun hh : a = j => h hh.symm), if_neg (fun hh : a = j => h hh.symm)]
    · simp only [dset, if_neg hk, dlookup]
      by_cases haj : a = j
      · rw [if_pos haj, if_pos haj]
      · rw [if_neg haj, if_neg haj, ih]

theorem dgetD_dset_self {α : Type} (d : Dict α) (k : String) (v dflt : α) :
    dgetD (dset d k v) k dflt = v := by
  simp [dgetD, dlookup_dset_self]

theorem dgetD_dset_ne {α : Type} (d : Dict α) (k j : String) (v dflt : α) (h : j ≠ k) :
    dgetD (dset d k v) j dflt = dgetD d j dflt := by
  simp [dgetD, dlookup_dset_ne _ _ _ _ h]

theorem dlookup_append_some {α : Type} {d1 : Dict α} {j : String} {v : α}
    (d2 : Dict α) (h : dlookup d1 j = some v) :
    dlookup (d1 ++ d2) j = some v := by
  induction d1 with
  | nil => simp [dlookup] at h
  | cons p rest ih =>
    obtain ⟨a, b⟩ := p
    by_cases ha : a = j
    · rw [dlookup, if_pos ha] at h
      rw [List.cons_append, dlookup, if_pos ha]
      exact h
    · rw [dlookup, if_neg ha] at h
      rw [List.cons_append, dlookup, if_neg ha]
      exact ih h

theorem dlookup_append_none {α : Type} {d1 : Dict α} {j : String}
    (d2 : Dict α) (h : dlookup d1 j = none) :
    dlookup (d1 ++ d2) j = dlookup d2 j := by
  induction d1 with
  | nil => simp [dlookup]
  | cons p rest ih =>
    obtain ⟨a, b⟩ := p
    by_cases ha : a = j
    · rw [dlookup, if_pos ha] at h
      exact absurd h (by simp)
    · rw [dlookup, if_neg ha] at h
      rw [List.cons_append, dlookup, if_neg ha]
      exact ih h

theorem dlookup_eq_none_iff {α : Type} (d : Dict α) (j : String) :
    dlookup d j = none ↔ j ∉ dkeys d := by
  induction d with
  | nil => simp [dlookup, dkeys_nil]
  | cons p rest ih =>
    obtain ⟨a, b⟩ := p
    rw [dkeys_cons, List.mem_cons, dlookup]
    by_cases ha : a = j
    · simp [ha]
    · rw [if_neg ha]
      simp only [not_or]
      constructor
      · intro hr
        exact ⟨fun hj => ha hj.symm, ih.mp hr⟩
      · intro hr
        exact ih.mpr hr.2

theorem dmem_iff {α : Type} (d : Dict α) (j : String) :
    dmem d j = true ↔ j ∈ dkeys d := by
  rw [dmem, Option.isSome_iff_ne_none, ne_eq, dlookup_eq_none_iff]
  simp

theorem dlookup_mem {α : Type} {d : Dict α} {j : String} {v : α}
    (h : dlookup d j = some v) : (j, v) ∈ d := by
  induction d with
  | nil => simp [dlookup] at h
  | cons p rest ih =>
    obtain ⟨a, b⟩ := p
    by_cases ha : a = j
    · subst ha
      rw [dlookup, if_pos rfl, Option.some.injEq] at h
      subst h
      exact List.mem_cons_self _ _
    · rw [dlookup, if_neg ha] at h
      exact List.mem_cons_of_mem _ (ih h)

theorem dlookup_of_mem_nodup {α : Type} {d : Dict α} {j : String} {v : α}
    (hnd : (dkeys d).Nodup) (h : (j, v) ∈ d) : dlookup d j = some v := by
  induction d with
  | nil => simp at h
  | cons p rest ih =>
    obtain ⟨a, b⟩ := p
    rw [dkeys_cons] at hnd
    have hnc := List.nodup_cons.mp hnd
    rcases List.mem_cons.mp h with h1 | h2
    · cases h1
      rw [dlookup, if_pos rfl]
    · have hja : a ≠ j := by
        intro hh
        apply hnc.1
        rw [hh]
        exact List.mem_map.mpr ⟨(j, v), h2, rfl⟩
      rw [dlookup, if_neg hja]
      exact ih hnc.2 h2

theorem dset_eq_append_of_not_mem {α : Type} (d : Dict α) (k : String) (v : α)
    (h : k ∉ dkeys d) : dset d k v = d ++ [(k, v)] := by
  induction d with
  | nil => simp [dset]
  | cons p rest ih =>
    obtain ⟨a, b⟩ := p
    rw [dkeys_cons, List.mem_cons, not_or] at h
    simp only [dset]
    rw [if_neg (fun hh : a = k => h.1 hh.symm), ih h.2, List.cons_append]

theorem dkeys_dset_of_mem {α : Type} (d : Dict α) (k : String) (v : α)
    (h : k ∈ dkeys d) : dkeys (dset d k v) = dkeys d := by
  induction d with
  | nil => simp [dkeys_nil] at h
  | cons p rest ih =>
    obtain ⟨a, b⟩ := p
    rw [dkeys_cons, List.mem_cons] at h
    by_cases ha : a = k
    · subst ha
      simp [dset, dkeys_cons]
    · rcases h with h | h
      · exact absurd h.symm ha
      · simp only [dset, if_neg ha, dkeys_cons, ih h]

theorem dlookup_ddel_self {α : Type} (d : Dict α) (k : String) :
    dlookup (ddel d k) k = none := by
  rw [dlookup_eq_none_iff]
  intro hmem
  obtain ⟨p, hp, hpk⟩ := List.mem_map.mp hmem
  have := (List.mem_filter.mp hp).2
  simp [hpk] at this

/-! ## Connection-map containment lemmas -/

namespace Improver

theorem dcontains_refl (c : Dict (List String)) : DContains c c :=
  fun _ _ h => h

theorem dcontains_trans {c1 c2 c3 : Dict (List String)}
    (h1 : DContains c1 c2) (h2 : DContains c2 c3) : DContains c1 c3 :=
  fun j x hx => h2 j x (h1 j x hx)

theorem dcontains_append (c : Dict (List String)) (l : Dict (List String)) :
    DContains c (c ++ l) := by
  intro j x hx
  rw [dgetD] at hx ⊢
  cases hl : dlookup c j with
  | none => rw [hl] at hx; simp at hx
  | some v =>
    rw [hl] at hx
    rw [dlookup_append_some l hl]
    exact hx

theorem dcontains_dset_append (c : Dict (List String)) (k : String) (v : String) :
    DContains c (dset c k (dgetD c k [] ++ [v])) := by
  intro j x hx
  by_cases hj : j = k
  · subst hj
    rw [dgetD_dset_self]
    exact List.mem_append_left _ hx
  · rw [dgetD_dset_ne _ _ _ _ _ hj]
    exact hx

theorem dcontains_dinit (c : Dict (List String)) (k : String) :
    DContains c (dinit c k) := by
  rw [dinit]
  by_cases h : dmem c k
  · rw [if_pos h]; exact dcontains_refl c
  · rw [if_neg h]; exact dcontains_append c _

theorem dcontains_dconnect (c : Dict (List String)) (k v : String) :
    DContains c (dconnect c k v) := by
  rw [dconnect]
  by_cases h : v ∈ dgetD c k []
  · rw [if_pos h]; exact dcontains_refl c
  · rw [if_neg h]; exact dcontains_dset_append c k v

theorem dcontains_ensureBidi (c : Dict (List String)) (s d : String) :
    DContains c (ensureBidi c s d) := by
  rw [ensureBidi]
  exact dcontains_trans (dcontains_dinit c s)
    (dcontains_trans (dcontains_dinit _ d)
      (dcontains_trans (dcontains_dconnect _ s d) (dcontains_dconnect _ d s)))

theorem mem_dconnect_self (c : Dict (List String)) (k v : String) :
    v ∈ dgetD (dconnect c k v) k [] := by
  rw [dconnect]
  by_cases h : v ∈ dgetD c k []
  · rw [if_pos h]; exact h
  · rw [if_neg h, dgetD_dset_self]
    exact List.mem_append_right _ (List.mem_singleton_self v)

theorem mem_ensureBidi_source (c : Dict (List String)) (s d : String) :
    d ∈ dgetD (ensureBidi c s d) s [] := by
  rw [ensureBidi]
  exact dcontains_dconnect _ d s s d (mem_dconnect_self _ s d)

theorem dcontains_foldl {β : Type} (f : Dict (List String) → β → Dict (List String))
    (hstep : ∀ c x, DContains c (f c x)) :
    ∀ (l : List β) (c : Dict (List String)), DContains c (l.foldl f c) := by
  intro l
  induction l with
  | nil => intro c; exact dcontains_refl c
  | cons x xs ih =>
    intro c
    rw [List.foldl_cons]
    exact dcontains_trans (hstep c x) (ih (f c x))

end Improver

/-! ## Subgraph-classification lemmas -/

theorem mem_dgetD_dpush {α : Type} (d : Dict (List α)) (k : String) (v : α)
    (j : String) (x : α) :
    x ∈ dgetD (dpush d k v) j [] ↔ x ∈ dgetD d j [] ∨ (j = k ∧ x = v) := by
  rw [dpush]
  by_cases hm : dmem d k
  · rw [if_pos hm]
    by_cases hj : j = k
    · subst hj
      rw [dgetD_dset_self]
      simp
    · rw [dgetD_dset_ne _ _ _ _ _ hj]
      simp [hj]
  · rw [if_neg hm]
    rw [dgetD, dgetD]
    cases hl : dlookup d j with
    | some w =>
      rw [dlookup_append_some _ hl]
      have hjk : j ≠ k := by
        intro hh
        subst hh
        rw [dmem, hl] at hm
        simp at hm
      simp [hjk, hl]
    | none =>
      rw [dlookup_append_none _ hl]
      by_cases hj : j = k
      · subst hj
        simp [dlookup, hl]
      · rw [dlookup, if_neg (fun hh : k = j => hj hh.symm)]
        simp [dlookup, hj, hl]

theorem mem_node_edges_aux (l : List Edge) :
    ∀ (d : Dict (List Edge)) (j : String) (x : Edge),
      x ∈ dgetD
          (l.foldl (fun d e => dpush (dpush d e.source_id e) e.destination_id e) d) j [] ↔
        x ∈ dgetD d j [] ∨ (x ∈ l ∧ (x.source_id = j ∨ x.destination_id = j)) := by
  induction l with
  | nil =>
    intro d j x
    simp
  | cons e es ih =>
    intro d j x
    rw [List.foldl_cons, ih, mem_dgetD_dpush, mem_dgetD_dpush]
    constructor
    · rintro (((h | ⟨hj, rfl⟩) | ⟨hj, rfl⟩) | ⟨hx, hinc⟩)
      · exact Or.inl h
      · exact Or.inr ⟨List.mem_cons_self _ _, Or.inl hj.symm⟩
      · exact Or.inr ⟨List.mem_cons_self _ _, Or.inr hj.symm⟩
      · exact Or.inr ⟨List.mem_cons_of_mem _ hx, hinc⟩
    · rintro (h | ⟨hx, hinc⟩)
      · exact Or.inl (Or.inl (Or.inl h))
      · rcases List.mem_cons.mp hx with rfl | hx2
        · rcases hinc with h1 | h1
          · exact Or.inl (Or.inl (Or.inr ⟨h1.symm, rfl⟩))
          · exact Or.inl (Or.inr ⟨h1.symm, rfl⟩)
        · exact Or.inr ⟨hx2, hinc⟩

theorem mem_node_edges (edges : List Edge) (j : String) (x : Edge) :
    x ∈ dgetD (node_edges_dict edges) j [] ↔
      x ∈ edges ∧ (x.source_id = j ∨ x.destination_id = j) := by
  rw [node_edges_dict, mem_node_edges_aux]
  simp [dgetD, dlookup]

theorem mem_subgraph_edges (edges : List Edge) (room_id : String) (max_steps : Nat)
    (e : Edge) :
    e ∈ (get_subgraph edges room_id max_steps).edges ↔
      e ∈ edges ∧ (e.source_id ∈ reachableNodes edges room_id max_steps ∧
        e.destination_id ∈ reachableNodes edges room_id max_steps) := by
  simp [get_subgraph, List.mem_filter]

theorem mem_fully_contained (edges : List Edge) (room_id : String) (max_steps : Nat)
    (n : String) :
    n ∈ (get_subgraph edges room_id max_steps).fully_contained_ids ↔
      n ∈ reachableNodes edges room_id max_steps ∧
        ∀ e, (e ∈ edges ∧ (e.source_id = n ∨ e.destination_id = n)) →
          (e.destination_id ∈ reachableNodes edges room_id max_steps ∧
            e.source_id ∈ reachableNodes edges room_id max_steps) := by
  simp [get_subgraph, List.mem_filter, List.all_eq_true, mem_node_edges]

theorem mem_boundary (edges : List Edge) (room_id : String) (max_steps : Nat)
    (n : String) :
    n ∈ (get_subgraph edges room_id max_steps).boundary_ids ↔
      n ∈ reachableNodes edges room_id max_steps ∧
        ¬ ∀ e, (e ∈ edges ∧ (e.source_id = n ∨ e.destination_id = n)) →
          (e.destination_id ∈ reachableNodes edges room_id max_steps ∧
            e.source_id ∈ reachableNodes edges room_id max_steps) := by
  have hiff := mem_fully_contained edges room_id max_steps n
  simp only [get_subgraph, List.mem_filter] at hiff ⊢
  rw [Bool.not_eq_true']
  constructor
  · rintro ⟨hr, hfalse⟩
    refine ⟨hr, fun hall => ?_⟩
    have := (hiff.mpr ⟨hr, hall⟩).2
    rw [hfalse] at this
    exact Bool.false_ne_true this
  · rintro ⟨hr, hnall⟩
    refine ⟨hr, ?_⟩
    cases hb : (dgetD (node_edges_dict edges) n []).all
        (fun e => decide (e.destination_id ∈ reachableNodes edges room_id max_steps ∧
          e.source_id ∈ reachableNodes edges room_id max_steps)) with
    | false => rfl
    | true => exact absurd ((hiff.mp ⟨hr, hb⟩)).2 hnall

/-! ## Claim C1 — cycle-closer emitted edge -/

/-- C1 (code bug): on the synthetic 3-edge path whose vector sum is
`(1, 0, 0)` between the unconnected degree-1 endpoints `a` and `d`,
`suggest_cycle` emits the edge `d → a` with `direction = "south"` and
`return_direction = "south"`: the return direction equals the direction
instead of being its opposite (the `next(...)` in `suggest_cycle` searches
for the direction whose vector equals `vector` itself rather than its
negation), and the closing direction for the displacement `(1, 0, 0)` is
`"south"`, not the `"west"` the claim expects, because `DIRECTION_VECTORS`
assigns `(1, 0, 0)` to north and `(0, 1, 0)` to east. -/
theorem suggest_cycle_return_direction_code_bug :
    (cyclePathEdges.map get_edge_vector).foldl vadd (0, 0, 0) = (1, 0, 0) ∧
    edgeDegree cyclePathEdges "a" = 1 ∧
    edgeDegree cyclePathEdges "d" = 1 ∧
    (∀ e ∈ cyclePathEdges,
      ¬ ((e.source_id = "a" ∧ e.destination_id = "d") ∨
         (e.source_id = "d" ∧ e.destination_id = "a"))) ∧
    suggest_cycle cyclePathEdges =
      some { source_id := "d", source_title := "D", destination_id := "a",
             destination_title := "A", direction := "south",
             return_direction := "south" } := by
  decide

/-! ## Claim C2 — subgraph classification -/

/-- C2 counterexample: on the 5-node line graph `A-B-C-D-E`, the radius-1
window around `C` classifies `C` itself as fully contained — both of its
incident edges lie inside the window — so `fully_contained_ids` is not the
empty set the claim asserts. -/
theorem get_subgraph_line_center_fully_contained :
    (get_subgraph lineEdges "C" 1).fully_contained_ids = ["C"] := by
  decide

/-- C2 (amended): on the 5-node line graph the radius-1 window around `C`
yields `fully_contained_ids = ["C"]` and `boundary_ids = ["B", "D"]`
(`A` and `E` are outside the window); and in general a reached node is
fully contained iff every one of its incident edges lies inside the
extracted window, and lies on the boundary iff at least one incident edge
leaves the window. -/
theorem get_subgraph_classification_spec :
    ((get_subgraph lineEdges "C" 1).fully_contained_ids = ["C"] ∧
     (get_subgraph lineEdges "C" 1).boundary_ids = ["B", "D"]) ∧
    ∀ (edges : List Edge) (room_id : String) (max_steps : Nat) (n : String),
      (n ∈ (get_subgraph edges room_id max_steps).fully_contained_ids ↔
        n ∈ reachableNodes edges room_id max_steps ∧
          ∀ e ∈ edges, (e.source_id = n ∨ e.destination_id = n) →
            e ∈ (get_subgraph edges room_id max_steps).edges) ∧
      (n ∈ (get_subgraph edges room_id max_steps).boundary_ids ↔
        n ∈ reachableNodes edges room_id max_steps ∧
          ¬ ∀ e ∈ edges, (e.source_id = n ∨ e.destination_id = n) →
            e ∈ (get_subgraph edges room_id max_steps).edges) := by
  have hinner : ∀ (edges : List Edge) (room_id : String) (max_steps : Nat) (n : String),
      (∀ e, (e ∈ edges ∧ (e.source_id = n ∨ e.destination_id = n)) →
        (e.destination_id ∈ reachableNodes edges room_id max_steps ∧
          e.source_id ∈ reachableNodes edges room_id max_steps)) ↔
      (∀ e ∈ edges, (e.source_id = n ∨ e.destination_id = n) →
        e ∈ (get_subgraph edges room_id max_steps).edges) := by
    intro edges room_id max_steps n
    constructor
    · intro h e he hinc
      rw [mem_subgraph_edges]
      exact ⟨he, (h e ⟨he, hinc⟩).2, (h e ⟨he, hinc⟩).1⟩
    · intro h e he
      have := (mem_subgraph_edges edges room_id max_steps e).mp (h e he.1 he.2)
      exact ⟨this.2.2, this.2.1⟩
  refine ⟨⟨by decide, by decide⟩, fun edges room_id max_steps n => ⟨?_, ?_⟩⟩
  · rw [mem_fully_contained]
    exact and_congr_right (fun _ => hinner edges room_id max_steps n)
  · rw [mem_boundary]
    exact and_congr_right (fun _ => not_congr (hinner edges room_id max_steps n))

/-- C2 witness: the general classification of `get_subgraph`, instantiated
on the concrete line graph, certifies that `B` is a boundary node of the
radius-1 window around `C` — its edge to `A` leaves the window. -/
theorem get_subgraph_classification_witness :
    "B" ∈ (get_subgraph lineEdges "C" 1).boundary_ids :=
  ((get_subgraph_classification_spec.2 lineEdges "C" 1 "B").2).mpr (by decide)

/-! ## Claim C4 — growth proposal validation -/

/-- C4 counterexample: the destination `D` of the proposed edge has five
incident edges (all with `D` as their source), yet `expand_map` accepts
the proposal, because its exit count only tallies edges whose
`destination_id` equals the proposed destination. -/
theorem expand_map_accepts_five_incident_destination :
    expand_map starEdges "x1" starProposal = some starProposal ∧
    starProposal.destination_id = "D" ∧
    max_exits < edgeDegree starEdges "D" := by
  refine ⟨by rfl, by rfl, by decide⟩

/-- C4 (amended): `expand_map` rejects the proposal iff an existing edge
has the same `(source, direction)`, or the reverse already exists with the
matching `return_direction`, or strictly more than `MAX_EXITS` (4)
existing edges already point INTO the proposed destination (edges leaving
it are not counted), or the destination is in the boundary ids of the
radius-2 window around the pivot; otherwise it returns the proposed
edge. -/
theorem expand_map_reject_conditions (edges : List Edge) (room_id : String)
    (new_edge : Edge) :
    (expand_map edges room_id new_edge = none ↔
      ((∃ e ∈ edges, e.source_id = new_edge.source_id ∧
          e.direction = new_edge.direction) ∨
       (∃ e ∈ edges, e.destination_id = new_edge.source_id ∧
          e.return_direction = new_edge.direction) ∨
       max_exits < edges.countP (fun e =>
          decide (e.destination_id = new_edge.destination_id)) ∨
       new_edge.destination_id ∈ (get_subgraph edges room_id 2).boundary_ids)) ∧
    (expand_map edges room_id new_edge ≠ none →
      expand_map edges room_id new_edge = some new_edge) := by
  have hdup : edges.any (fun e =>
      decide ((e.source_id = new_edge.source_id ∧ e.direction = new_edge.direction) ∨
        (e.destination_id = new_edge.source_id ∧
          e.return_direction = new_edge.direction))) = true ↔
      ((∃ e ∈ edges, e.source_id = new_edge.source_id ∧
          e.direction = new_edge.direction) ∨
       (∃ e ∈ edges, e.destination_id = new_edge.source_id ∧
          e.return_direction = new_edge.direction)) := by
    rw [List.any_eq_true]
    constructor
    · rintro ⟨e, he, hp⟩
      rw [decide_eq_true_eq] at hp
      rcases hp with hp | hp
      · exact Or.inl ⟨e, he, hp⟩
      · exact Or.inr ⟨e, he, hp⟩
    · rintro (⟨e, he, hp⟩ | ⟨e, he, hp⟩)
      · exact ⟨e, he, by rw [decide_eq_true_eq]; exact Or.inl hp⟩
      · exact ⟨e, he, by rw [decide_eq_true_eq]; exact Or.inr hp⟩
  rw [expand_map]
  by_cases h1 : edges.any (fun e =>
      decide ((e.source_id = new_edge.source_id ∧ e.direction = new_edge.direction) ∨
        (e.destination_id = new_edge.source_id ∧
          e.return_direction = new_edge.direction))) = true
  · rw [if_pos h1]
    refine ⟨⟨fun _ => ?_, fun _ => rfl⟩, fun hne => absurd rfl hne⟩
    rcases hdup.mp h1 with hp | hp
    · exact Or.inl hp
    · exact Or.inr (Or.inl hp)
  · rw [if_neg h1]
    by_cases h2 : max_exits < edges.countP (fun e =>
        decide (e.destination_id = new_edge.destination_id))
    · rw [if_pos h2]
      exact ⟨⟨fun _ => Or.inr (Or.inr (Or.inl h2)), fun _ => rfl⟩,
        fun hne => absurd rfl hne⟩
    · rw [if_neg h2]
      by_cases h3 : new_edge.destination_id ∈ (get_subgraph edges room_id 2).boundary_ids
      · rw [if_pos h3]
        exact ⟨⟨fun _ => Or.inr (Or.inr (Or.inr h3)), fun _ => rfl⟩,
          fun hne => absurd rfl hne⟩
      · rw [if_neg h3]
        refine ⟨⟨fun hsome => absurd hsome (by simp), ?_⟩, fun _ => rfl⟩
        rintro (hp | hp | hp | hp)
        · exact absurd (hdup.mpr (Or.inl hp)) h1
        · exact absurd (hdup.mpr (Or.inr hp)) h1
        · exact absurd hp h2
        · exact absurd hp h3

/-- C4 witness: on the concrete star graph, a proposal duplicating an
existing `(source, direction)` pair is rejected, by the reject-conditions
theorem. -/
theorem expand_map_reject_conditions_witness :
    expand_map starEdges "x1"
      { source_id := "D", source_title := "D", destination_id := "x9",
        destination_title := "X9", direction := "north", return_direction := "south" }
      = none :=
  (expand_map_reject_conditions starEdges "x1"
    { source_id := "D", source_title := "D", destination_id := "x9",
      destination_title := "X9", direction := "north",
      return_direction := "south" }).1.mpr (by decide)

/-! ## Claim C5 — growth pivot selection -/

theorem dgetD_dincr (d : Dict Nat) (k j : String) :
    dgetD (dincr d k) j 0 = dgetD d j 0 + (if j = k then 1 else 0) := by
  induction d with
  | nil =>
    by_cases h : j = k
    · subst h
      simp [dincr, dgetD, dlookup]
    · simp only [dincr]
      rw [dgetD, dlookup, if_neg (fun hh : k = j => h hh.symm)]
      simp [dgetD, dlookup, h]
  | cons p rest ih =>
    obtain ⟨a, b⟩ := p
    by_cases hak : a = k
    · subst hak
      have hstep : dincr ((a, b) :: rest) a = (a, b + 1) :: rest := by
        simp [dincr]
      by_cases haj : a = j
      · subst haj
        rw [hstep, dgetD, dlookup, if_pos rfl, dgetD, dlookup, if_pos rfl, if_pos rfl]
        simp
      · rw [hstep, dgetD, dlookup, if_neg haj, dgetD, dlookup, if_neg haj,
          if_neg (fun hh : j = a => haj hh.symm)]
        simp
    · simp only [dincr, if_neg hak]
      by_cases haj : a = j
      · subst haj
        rw [dgetD, dlookup, if_pos rfl, dgetD, dlookup, if_pos rfl,
          if_neg (fun hh : a = k => hak hh)]
        simp
      · rw [dgetD, dlookup, if_neg haj, dgetD, dlookup, if_neg haj]
        exact ih

theorem mem_dkeys_dincr (d : Dict Nat) (k j : String) :
    j ∈ dkeys (dincr d k) ↔ j ∈ dkeys d ∨ j = k := by
  induction d with
  | nil => simp [dincr, dkeys]
  | cons p rest ih =>
    obtain ⟨a, b⟩ := p
    by_cases hak : a = k
    · subst hak
      have hstep : dincr ((a, b) :: rest) a = (a, b + 1) :: rest := by
        simp [dincr]
      rw [hstep, dkeys_cons, dkeys_cons]
      simp only [List.mem_cons]
      tauto
    · simp only [dincr, if_neg hak, dkeys_cons, List.mem_cons, ih]
      tauto

theorem nodup_dkeys_dincr (d : Dict Nat) (k : String)
    (h : (dkeys d).Nodup) : (dkeys (dincr d k)).Nodup := by
  induction d with
  | nil => simp [dincr, dkeys]
  | cons p rest ih =>
    obtain ⟨a, b⟩ := p
    rw [dkeys_cons, List.nodup_cons] at h
    by_cases hak : a = k
    · subst hak
      have hstep : dincr ((a, b) :: rest) a = (a, b + 1) :: rest := by
        simp [dincr]
      rw [hstep, dkeys_cons, List.nodup_cons]
      exact h
    · simp only [dincr, if_neg hak, dkeys_cons, List.nodup_cons]
      refine ⟨?_, ih h.2⟩
      rw [mem_dkeys_dincr]
      rintro (hm | hm)
      · exact h.1 hm
      · exact hak hm

theorem id_counts_getD (edges : List Edge) :
    ∀ (d : Dict Nat) (j : String),
      dgetD (edges.foldl (fun d e => dincr (dincr d e.source_id) e.destination_id) d) j 0 =
        dgetD d j 0 + edgeDegree edges j := by
  induction edges with
  | nil =>
    intro d j
    simp [edgeDegree]
  | cons e es ih =>
    intro d j
    rw [List.foldl_cons, ih, dgetD_dincr, dgetD_dincr]
    have hdeg : edgeDegree (e :: es) j =
        edgeDegree es j + ((if j = e.source_id then 1 else 0) +
          (if j = e.destination_id then 1 else 0)) := by
      rw [edgeDegree, edgeDegree, List.countP_cons, List.countP_cons]
      by_cases h1 : e.source_id = j
      · by_cases h2 : e.destination_id = j
        · simp [h1, h2]
          all_goals omega
        · rw [if_neg (fun hh : j = e.destination_id => h2 hh.symm)]
          simp [h1, h2]
          all_goals omega
      · by_cases h2 : e.destination_id = j
        · rw [if_neg (fun hh : j = e.source_id => h1 hh.symm)]
          simp [h1, h2]
          all_goals omega
        · rw [if_neg (fun hh : j = e.source_id => h1 hh.symm),
            if_neg (fun hh : j = e.destination_id => h2 hh.symm)]
          simp [h1, h2]
    rw [hdeg]
    omega

theorem id_counts_degree (edges : List Edge) (j : String) :
    dgetD (id_counts edges) j 0 = edgeDegree edges j := by
  rw [id_counts, id_counts_getD]
  simp [dgetD, dlookup]

theorem mem_dkeys_id_counts (edges : List Edge) (j : String) :
    j ∈ dkeys (id_counts edges) ↔ edgeMentions edges j := by
  rw [id_counts]
  have aux : ∀ (l : List Edge) (d : Dict Nat),
      j ∈ dkeys (l.foldl (fun d e => dincr (dincr d e.source_id) e.destination_id) d) ↔
        j ∈ dkeys d ∨ edgeMentions l j := by
    intro l
    induction l with
    | nil =>
      intro d
      simp [edgeMentions]
    | cons e es ihl =>
      intro d
      rw [List.foldl_cons, ihl, mem_dkeys_dincr, mem_dkeys_dincr]
      simp only [edgeMentions, List.mem_cons]
      constructor
      · rintro (((h | h) | h) | h)
        · exact Or.inl h
        · exact Or.inr ⟨e, Or.inl rfl, Or.inl h.symm⟩
        · exact Or.inr ⟨e, Or.inl rfl, Or.inr h.symm⟩
        · obtain ⟨x, hx, hor⟩ := h
          exact Or.inr ⟨x, Or.inr hx, hor⟩
      · rintro (h | ⟨x, hx, hor⟩)
        · exact Or.inl (Or.inl (Or.inl h))
        · rcases hx with rfl | hx
          · rcases hor with h | h
            · exact Or.inl (Or.inl (Or.inr h.symm))
            · exact Or.inl (Or.inr h.symm)
          · exact Or.inr ⟨x, hx, hor⟩
  rw [aux]
  simp [dkeys]

theorem nodup_dkeys_id_counts (edges : List Edge) :
    (dkeys (id_counts edges)).Nodup := by
  rw [id_counts]
  have aux : ∀ (l : List Edge) (d : Dict Nat), (dkeys d).Nodup →
      (dkeys (l.foldl (fun d e => dincr (dincr d e.source_id) e.destination_id) d)).Nodup := by
    intro l
    induction l with
    | nil => intro d h; exact h
    | cons e es ihl =>
      intro d h
      rw [List.foldl_cons]
      exact ihl _ (nodup_dkeys_dincr _ _ (nodup_dkeys_dincr _ _ h))
  exact aux edges [] (by simp [dkeys])

theorem mem_valid_room_ids (edges : List Edge) (m : Nat) (id : String) :
    id ∈ valid_room_ids edges m ↔
      edgeMentions edges id ∧ edgeDegree edges id < m := by
  rw [valid_room_ids]
  constructor
  · intro h
    obtain ⟨p, hp, hpid⟩ := List.mem_map.mp h
    obtain ⟨a, c⟩ := p
    have hpf := List.mem_filter.mp hp
    have hid : a = id := hpid
    subst hid
    have hk : a ∈ dkeys (id_counts edges) :=
      List.mem_map.mpr ⟨(a, c), hpf.1, rfl⟩
    refine ⟨(mem_dkeys_id_counts edges a).mp hk, ?_⟩
    have hlk : dlookup (id_counts edges) a = some c :=
      dlookup_of_mem_nodup (nodup_dkeys_id_counts edges) hpf.1
    have hdeg := id_counts_degree edges a
    rw [dgetD, hlk] at hdeg
    have hc : c < m := by
      have := hpf.2
      simp at this
      exact this
    rw [← hdeg]
    exact hc
  · rintro ⟨hm, hdeg⟩
    have hk : id ∈ dkeys (id_counts edges) := (mem_dkeys_id_counts edges id).mpr hm
    cases hl : dlookup (id_counts edges) id with
    | none => exact absurd ((dlookup_eq_none_iff _ _).mp hl) (by simp [hk])
    | some c =>
      have hdc : c = edgeDegree edges id := by
        have := id_counts_degree edges id
        rw [dgetD, hl] at this
        simpa using this
      refine List.mem_map.mpr ⟨(id, c), List.mem_filter.mpr ⟨dlookup_mem hl, ?_⟩, rfl⟩
      simp [hdc]
      exact hdeg

theorem nodup_valid_room_ids (edges : List Edge) (m : Nat) :
    (valid_room_ids edges m).Nodup := by
  rw [valid_room_ids]
  refine List.Nodup.sublist ?_ (nodup_dkeys_id_counts edges)
  rw [dkeys]
  exact List.Sublist.map Prod.fst (List.filter_sublist _)

/-! ## Claim C5 — growth pivot selection -/

/-- C5: the pivot pool of `pickGrowthPivot(edges, maxExits)` (realised as
`get_random_room_id(edges, max_exits - 1)`) is exactly the set of ids
mentioned in the edge list whose degree is strictly below `maxExits - 1`,
each listed exactly once — so `random.choice` draws uniformly over that
set — and the selection fails (the empty pool, where `random.choice`
raises `IndexError`, the failure the spec names `NoEligiblePivot`) iff the
set is empty.  Every returned id belongs to the set. -/
theorem pickGrowthPivot_uniform_spec (edges : List Edge) (maxExits : Nat) :
    ((∀ k, pickGrowthPivot edges maxExits k = none) ↔
      ∀ id, ¬ (edgeMentions edges id ∧ edgeDegree edges id < maxExits - 1)) ∧
    (∀ k id, pickGrowthPivot edges maxExits k = some id →
      edgeMentions edges id ∧ edgeDegree edges id < maxExits - 1) ∧
    (∀ id, (valid_room_ids edges (maxExits - 1)).count id =
      if edgeMentions edges id ∧ edgeDegree edges id < maxExits - 1 then 1 else 0) := by
  refine ⟨⟨?_, ?_⟩, ?_, ?_⟩
  · intro h id hcon
    have hmem := (mem_valid_room_ids edges (maxExits - 1) id).mpr hcon
    obtain ⟨n, hn⟩ := List.mem_iff_get?.mp hmem
    have := h n
    rw [pickGrowthPivot, get_random_room_id, hn] at this
    exact Option.some_ne_none _ this
  · intro h k
    rw [pickGrowthPivot, get_random_room_id]
    cases hg : (valid_room_ids edges (maxExits - 1)).get? k with
    | none => rfl
    | some id =>
      exact absurd ((mem_valid_room_ids _ _ _).mp (List.get?_mem hg)) (h id)
  · intro k id h
    rw [pickGrowthPivot, get_random_room_id] at h
    exact (mem_valid_room_ids _ _ _).mp (List.get?_mem h)
  · intro id
    by_cases h : edgeMentions edges id ∧ edgeDegree edges id < maxExits - 1
    · rw [if_pos h]
      exact List.count_eq_one_of_mem (nodup_valid_room_ids _ _)
        ((mem_valid_room_ids _ _ _).mpr h)
    · rw [if_neg h]
      exact List.count_eq_zero_of_not_mem
        (fun hm => h ((mem_valid_room_ids _ _ _).mp hm))

/-- C5 witness: on the concrete star graph with `maxExits = 4`, index 0
draws `x1`, which the theorem certifies is mentioned and has degree below
3. -/
theorem pickGrowthPivot_uniform_witness :
    edgeMentions starEdges "x1" ∧ edgeDegree starEdges "x1" < 4 - 1 :=
  (pickGrowthPivot_uniform_spec starEdges 4).2.1 0 "x1" (by decide)

/-! ## Claim C6 — merge-point validation -/

/-- C6: `find_merge_points` keeps exactly the proposed pairs whose two ids
exist in their respective designs; it fails fatally (the `exit()` call,
embedded as the error result) iff no pair survives, and otherwise returns
all surviving pairs, each of which references existing ids and was
proposed. -/
theorem find_merge_points_spec (d1 d2 : WorldDesign) (pts : List (String × String)) :
    (find_merge_points d1 d2 pts = .error "FATAL ERROR: Could not merge worlds!" ↔
      pts.filter (fun p => decide (p.1 ∈ d1.locations.map (fun loc => loc.id) ∧
        p.2 ∈ d2.locations.map (fun loc => loc.id))) = []) ∧
    (∀ v, find_merge_points d1 d2 pts = .ok v →
      v = pts.filter (fun p => decide (p.1 ∈ d1.locations.map (fun loc => loc.id) ∧
          p.2 ∈ d2.locations.map (fun loc => loc.id))) ∧
      ∀ p ∈ v, (p.1 ∈ d1.locations.map (fun loc => loc.id) ∧
        p.2 ∈ d2.locations.map (fun loc => loc.id)) ∧ p ∈ pts) := by
  rw [find_merge_points]
  by_cases h : (pts.filter (fun p => decide (p.1 ∈ d1.locations.map (fun loc => loc.id) ∧
      p.2 ∈ d2.locations.map (fun loc => loc.id)))).isEmpty
  · rw [if_pos h]
    rw [List.isEmpty_iff] at h
    refine ⟨⟨fun _ => h, fun _ => rfl⟩, ?_⟩
    intro v hv
    exact absurd hv (by simp)
  · rw [if_neg h]
    rw [List.isEmpty_iff] at h
    refine ⟨⟨fun he => absurd he (by simp), fun he => absurd he h⟩, ?_⟩
    intro v hv
    rw [Except.ok.injEq] at hv
    subst hv
    refine ⟨rfl, fun p hp => ?_⟩
    have hpf := List.mem_filter.mp hp
    refine ⟨by simpa using hpf.2, hpf.1⟩

/-- C6 witness: on the two concrete sample designs, the theorem certifies
that the single surviving pair is returned and references existing ids. -/
theorem find_merge_points_witness :
    ("home" ∈ sampleDesign.locations.map (fun loc => loc.id) ∧
      "keep" ∈ sampleDesign2.locations.map (fun loc => loc.id)) ∧
    ("home", "keep") ∈ [("home", "keep"), ("home", "nowhere")] :=
  ((find_merge_points_spec sampleDesign sampleDesign2
    [("home", "keep"), ("home", "nowhere")]).2 [("home", "keep")] (by rfl)).2
    ("home", "keep") (by decide)

/-! ## Claim C9 — duplicate location ids -/

/-- C9: `WorldDesign.add_location` reports an error iff some existing
location already carries the new location's id, and in that case the
design is unchanged; otherwise the location is appended and empty entries
are installed for it in the connection map and the exit map. -/
theorem add_location_spec (d : WorldDesign) (loc : LocationDescription) :
    (((d.add_location loc).2).isSome ↔ ∃ l ∈ d.locations, l.id = loc.id) ∧
    ((∃ l ∈ d.locations, l.id = loc.id) → (d.add_location loc).1 = d) ∧
    ((¬ ∃ l ∈ d.locations, l.id = loc.id) →
      (d.add_location loc).1.locations = d.locations ++ [loc] ∧
      dlookup (d.add_location loc).1.location_connections loc.id = some [] ∧
      dlookup (d.add_location loc).1.location_exits loc.id = some []) := by
  have hany : d.locations.any (fun l => l.id == loc.id) = true ↔
      ∃ l ∈ d.locations, l.id = loc.id := by
    rw [List.any_eq_true]
    constructor
    · rintro ⟨l, hl, hb⟩
      exact ⟨l, hl, by simpa using hb⟩
    · rintro ⟨l, hl, hb⟩
      exact ⟨l, hl, by simpa using hb⟩
  rw [WorldDesign.add_location]
  by_cases h : d.locations.any (fun l => l.id == loc.id) = true
  · rw [if_pos h]
    exact ⟨by simpa using hany.mp h, fun _ => rfl,
      fun hc => absurd (hany.mp h) hc⟩
  · rw [if_neg h]
    refine ⟨by simpa using fun hc => h (hany.mpr hc), fun hc => absurd (hany.mpr hc) h, ?_⟩
    intro _
    exact ⟨rfl, dlookup_dset_self _ _ _, dlookup_dset_self _ _ _⟩

/-- C9 witness: adding a location that reuses the id `home` to the sample
design reports the duplicate and leaves the design unchanged. -/
theorem add_location_witness :
    (sampleDesign.add_location
      { id := "home", is_key := false, title := "H2",
        brief_description := "b", long_description := "l" }).1 = sampleDesign :=
  (add_location_spec sampleDesign
    { id := "home", is_key := false, title := "H2",
      brief_description := "b", long_description := "l" }).2.1 (by decide)

/-! ## Claim C10 — location renaming -/

theorem renameFirstLocation_no_old (locs : List LocationDescription) (old new : String)
    (hnew : new ≠ old)
    (hcount : locs.countP (fun l => decide (l.id = old)) = 1) :
    ∀ l ∈ WorldDesign.renameFirstLocation locs old new, l.id ≠ old := by
  induction locs with
  | nil => simp [WorldDesign.renameFirstLocation]
  | cons x xs ih =>
    rw [List.countP_cons] at hcount
    by_cases hx : x.id = old
    · simp only [WorldDesign.renameFirstLocation, if_pos hx]
      have hz : xs.countP (fun l => decide (l.id = old)) = 0 := by
        rw [if_pos (by simpa using hx)] at hcount
        omega
      intro l hl
      rcases List.mem_cons.mp hl with rfl | hl2
      · exact hnew
      · have := List.countP_eq_zero.mp hz l hl2
        simpa using this
    · simp only [WorldDesign.renameFirstLocation, if_neg hx]
      have hone : xs.countP (fun l => decide (l.id = old)) = 1 := by
        rw [if_neg (by simpa using hx)] at hcount
        omega
      intro l hl
      rcases List.mem_cons.mp hl with rfl | hl2
      · exact hx
      · exact ih hone l hl2

theorem dlookup_map_none {α β : Type} (f : String × α → String × β)
    (hf : ∀ p, (f p).1 = p.1) (d : Dict α) (j : String)
    (h : dlookup d j = none) : dlookup (d.map f) j = none := by
  rw [dlookup_eq_none_iff] at h ⊢
  intro hmem
  apply h
  obtain ⟨q, hq, hq1⟩ := List.mem_map.mp hmem
  obtain ⟨p, hp, rfl⟩ := List.mem_map.mp hq
  exact List.mem_map.mpr ⟨p, hp, by rw [← hq1, hf]⟩

/-- C10: renaming a missing id returns `False` and leaves the design
unchanged; renaming the unique location with id `old_id` to a distinct
`new_id` returns `True` and purges `old_id` from the location list, both
maps (keys, connection entries), all character-location lists and the
starting location id. -/
theorem rename_location_id_spec (d : WorldDesign) (old new : String) :
    (d.find_location_by_id old = none → d.rename_location_id old new = (d, false)) ∧
    (d.locations.countP (fun l => decide (l.id = old)) = 1 → new ≠ old →
      (d.rename_location_id old new).2 = true ∧
      oldIdPurged (d.rename_location_id old new).1 old) := by
  constructor
  · intro h
    rw [WorldDesign.rename_location_id, h]
  · intro hcount hnew
    have hfind : ∃ x, d.find_location_by_id old = some x := by
      have hpos : 0 < d.locations.countP (fun l => decide (l.id = old)) := by omega
      obtain ⟨x, hx, hpx⟩ := List.countP_pos_iff.mp hpos
      rw [WorldDesign.find_location_by_id]
      have hs : (d.locations.find? (fun loc => loc.id == old)).isSome :=
        List.find?_isSome.mpr ⟨x, hx, by simpa using hpx⟩
      exact Option.isSome_iff_exists.mp hs
    obtain ⟨x, hx⟩ := hfind
    rw [WorldDesign.rename_location_id, hx]
    refine ⟨rfl, ?_, ?_, ?_, ?_, ?_, ?_⟩
    · exact renameFirstLocation_no_old d.locations old new hnew hcount
    · show dlookup ((match dlookup d.location_connections old with
        | some v => ddel (dset d.location_connections new v) old
        | none => d.location_connections).map _) old = none
      apply dlookup_map_none _ (fun p => by split <;> rfl)
      cases hc : dlookup d.location_connections old with
      | some v => exact dlookup_ddel_self _ _
      | none => exact hc
    · show dlookup (match dlookup d.location_exits old with
        | some v => ddel (dset d.location_exits new v) old
        | none => d.location_exits) old = none
      cases hc : dlookup d.location_exits old with
      | some v => exact dlookup_ddel_self _ _
      | none => exact hc
    · intro p hp
      obtain ⟨q, hq, rfl⟩ := List.mem_map.mp hp
      by_cases hm : old ∈ q.2
      · rw [if_pos hm]
        intro hmem
        rcases List.mem_append.mp hmem with hmem | hmem
        · exact absurd ((List.mem_filter.mp hmem).2) (by simp)
        · rw [List.mem_singleton] at hmem
          exact hnew hmem.symm
      · rw [if_neg hm]
        exact hm
    · intro p hp
      obtain ⟨q, hq, rfl⟩ := List.mem_map.mp hp
      intro hmem
      obtain ⟨y, hy, hyeq⟩ := List.mem_map.mp hmem
      by_cases hyo : y = old
      · rw [if_pos hyo] at hyeq
        exact hnew hyeq
      · rw [if_neg hyo] at hyeq
        exact hyo hyeq
    · by_cases hs : d.starting_location_id = old
      · rw [if_pos hs]
        exact hnew
      · rw [if_neg hs]
        exact hs

/-- C10 witness: renaming `home` (unique) to `base` in the sample design
returns `True` and purges `home` everywhere. -/
theorem rename_location_id_witness :
    (sampleDesign.rename_location_id "home" "base").2 = true ∧
    oldIdPurged (sampleDesign.rename_location_id "home" "base").1 "home" :=
  (rename_location_id_spec sampleDesign "home" "base").2 (by decide) (by decide)

/-! ## Claim C3 — split plan arity -/

/-- C3 counterexample: a plan with three replacement locations is
discarded — `improve_single_location_and_apply` returns the components and
the starting id unchanged (the replacement location `n1` is never added) —
although the claim says plans with 2 to 5 locations are accepted. -/
theorem improve_apply_three_location_plan_rejected :
    Improver.improve_single_location_and_apply hubComponents "hub" (some "hub")
      planThree chooseHead chooseHead = .ok (hubComponents, some "hub") ∧
    planThree.new_locations.length = 3 ∧
    (¬ ∃ l ∈ hubComponents.locations, l.id = "n1") := by
  refine ⟨by rfl, by rfl, by decide⟩

/-- C3 (amended): for an overloaded location that exists, the improvement
is aborted — components and starting id returned unchanged — exactly when
the plan does not contain exactly 2 new locations; only a plan with
exactly 2 replacement locations is accepted and applied. -/
theorem improve_apply_exactly_two_iff (sc : Improver.StoryWorldComponents)
    (location_id : String) (starting : Option String)
    (plan : Improver.LocationImprovementPlan)
    (chooseMiss chooseRe : String → List String → String)
    (hover : 4 < (dgetD sc.location_connections location_id []).length)
    (hfound : (Improver.find_location_by_id sc location_id).isSome) :
    Improver.improve_single_location_and_apply sc location_id starting plan
        chooseMiss chooseRe =
      if plan.new_locations.length = 2 then
        .ok (Improver.apply_improvement_plan sc location_id starting plan
          chooseMiss chooseRe)
      else .ok (sc, starting) := by
  obtain ⟨x, hx⟩ := Option.isSome_iff_exists.mp hfound
  rw [Improver.improve_single_location_and_apply, Improver.improve_single_location,
    if_neg (by omega), hx]
  dsimp only
  by_cases hlen : plan.new_locations.length = 2
  · rw [if_pos hlen]
    have hne : plan.new_locations.isEmpty = false := by
      cases hcase : plan.new_locations with
      | nil => rw [hcase] at hlen; simp at hlen
      | cons a l => rfl
    rw [hne]
    simp only [Bool.false_and, Bool.false_eq_true, if_false]
    rw [if_neg (by omega)]
  · rw [if_neg hlen]
    by_cases hempty : plan.new_locations.isEmpty && plan.updated_connections.isEmpty
    · rw [if_pos hempty]
    · rw [if_neg hempty, if_pos hlen]

/-- C3 witness: on the concrete overloaded hub, a 2-location plan is
accepted and applied, by the arity theorem. -/
theorem improve_apply_exactly_two_witness :
    Improver.improve_single_location_and_apply hubComponents "hub" (some "hub")
        planTwo chooseHead chooseHead =
      if planTwo.new_locations.length = 2 then
        .ok (Improver.apply_improvement_plan hubComponents "hub" (some "hub") planTwo
          chooseHead chooseHead)
      else .ok (hubComponents, some "hub") :=
  improve_apply_exactly_two_iff hubComponents "hub" (some "hub") planTwo
    chooseHead chooseHead (by decide) (by decide)

/-! ## Claim C8 — iteration-capped repair loop -/

theorem pickMostOvercrowded_none_iff (l : List (String × Nat)) :
    Improver.pickMostOvercrowded l = none ↔ l = [] := by
  constructor
  · intro h
    cases l with
    | nil => rfl
    | cons p rest =>
      exfalso
      have aux : ∀ (m : List (String × Nat)) (b : String × Nat),
          (m.foldl (fun best q => match best with
            | none => some q
            | some bb => if bb.2 < q.2 then some q else some bb) (some b)) ≠ none := by
        intro m
        induction m with
        | nil =>
          intro b
          simp
        | cons q qs ihm =>
          intro b
          rw [List.foldl_cons]
          dsimp only
          by_cases hlt : b.2 < q.2
          · rw [if_pos hlt]
            exact ihm q
          · rw [if_neg hlt]
            exact ihm b
      rw [Improver.pickMostOvercrowded, List.foldl_cons] at h
      exact aux rest p h
  · intro h
    subst h
    rfl

theorem overcrowdedOf_nil_iff (sc : Improver.StoryWorldComponents) :
    Improver.overcrowdedOf sc = [] ↔
      ∀ p ∈ sc.location_connections, p.2.length ≤ 4 := by
  rw [Improver.overcrowdedOf]
  have aux : ∀ (l : List (String × List String)) (acc : List (String × Nat)),
      l.foldl (fun acc p =>
          if 4 < p.2.length then acc ++ [(p.1, p.2.length)] else acc) acc = [] ↔
        (acc = [] ∧ ∀ p ∈ l, p.2.length ≤ 4) := by
    intro l
    induction l with
    | nil =>
      intro acc
      simp
    | cons p ps ihl =>
      intro acc
      rw [List.foldl_cons]
      by_cases h : 4 < p.2.length
      · rw [if_pos h, ihl]
        constructor
        · rintro ⟨hacc, _⟩
          exact absurd hacc (by simp)
        · rintro ⟨_, hall⟩
          have := hall p (List.mem_cons_self _ _)
          omega
      · rw [if_neg h, ihl]
        constructor
        · rintro ⟨hacc, hall⟩
          refine ⟨hacc, fun q hq => ?_⟩
          rcases List.mem_cons.mp hq with rfl | hq2
          · omega
          · exact hall q hq2
        · rintro ⟨hacc, hall⟩
          exact ⟨hacc, fun q hq => hall q (List.mem_cons_of_mem _ hq)⟩
  rw [aux]
  simp

theorem improve_single_location_error (sc : Improver.StoryWorldComponents)
    (loc : String) (plan : Improver.LocationImprovementPlan) (e : String)
    (h : Improver.improve_single_location sc loc plan = .error e) :
    e = "Location with ID " ++ loc ++ " not found in world components" := by
  rw [Improver.improve_single_location] at h
  by_cases hle : (dgetD sc.location_connections loc []).length ≤ 4
  · rw [if_pos hle] at h
    exact absurd h (by simp)
  · rw [if_neg hle] at h
    cases hf : Improver.find_location_by_id sc loc with
    | none =>
      rw [hf] at h
      dsimp only at h
      rw [Except.error.injEq] at h
      exact h.symm
    | some x =>
      rw [hf] at h
      exact absurd h (by simp)

theorem improve_apply_error (sc : Improver.StoryWorldComponents) (loc : String)
    (st : Option String) (plan : Improver.LocationImprovementPlan)
    (cm cr : String → List String → String) (e : String)
    (h : Improver.improve_single_location_and_apply sc loc st plan cm cr = .error e) :
    e = "Location with ID " ++ loc ++ " not found in world components" := by
  rw [Improver.improve_single_location_and_apply] at h
  cases hs : Improver.improve_single_location sc loc plan with
  | error e2 =>
    rw [hs] at h
    dsimp only at h
    rw [Except.error.injEq] at h
    rw [← h]
    exact improve_single_location_error sc loc plan e2 hs
  | ok p =>
    rw [hs] at h
    dsimp only at h
    split at h
    · exact absurd h (by simp)
    · split at h
      · exact absurd h (by simp)
      · exact absurd h (by simp)

theorem improveLoop_invariant (plans : Nat → Improver.LocationImprovementPlan)
    (cm cr : String → List String → String) :
    ∀ (fuel iteration : Nat) (sc : Improver.StoryWorldComponents) (st : Option String),
      match Improver.improveLoop plans cm cr fuel iteration sc st with
      | .success sc2 _ iterations =>
          iterations ≤ iteration + fuel ∧
          ∀ p ∈ sc2.location_connections, p.2.length ≤ 4
      | .capped _ _ iterations => iterations = iteration + fuel
      | .failed msg =>
          ∃ loc, msg = "Location with ID " ++ loc ++ " not found in world components" := by
  intro fuel
  induction fuel with
  | zero =>
    intro it sc st
    rw [Improver.improveLoop]
    dsimp only
    omega
  | succ n ih =>
    intro it sc st
    rw [Improver.improveLoop]
    cases hpick : Improver.pickMostOvercrowded (Improver.overcrowdedOf sc) with
    | none =>
      dsimp only
      refine ⟨by omega, ?_⟩
      intro p hp
      have hempty := (pickMostOvercrowded_none_iff _).mp hpick
      have := (overcrowdedOf_nil_iff sc).mp hempty p hp
      omega
    | some picked =>
      dsimp only
      cases happ : Improver.improve_single_location_and_apply sc picked.1 st
          (plans it) cm cr with
      | error e =>
        dsimp only
        exact ⟨picked.1, improve_apply_error sc picked.1 st (plans it) cm cr e happ⟩
      | ok pr =>
        obtain ⟨sc2, st2⟩ := pr
        dsimp only
        have hrec := ih (it + 1) sc2 st2
        revert hrec
        cases hout : Improver.improveLoop plans cm cr n (it + 1) sc2 st2 with
        | success a b c =>
          dsimp only
          intro hrec
          exact ⟨by omega, hrec.2⟩
        | capped a b c =>
          dsimp only
          intro hrec
          omega
        | failed m =>
          dsimp only
          intro hrec
          exact hrec

/-- C8 counterexample: a SplitProposer response whose connection map
overloads the key `ghost`, which names no location, makes
`improve_world_design` terminate with the propagated missing-location
error on its second iteration — the run does not terminate normally for
every sequence of responses. -/
theorem improve_world_design_ghost_error :
    Improver.improve_world_design ghostDesign (fun _ => ghostPlan)
      chooseHead chooseHead =
      .failed "Location with ID ghost not found in world components" := by
  rfl

/-- C8 (amended): `improve_world_design` performs at most 20 repair
iterations; it stops early with success exactly when no connection entry
exceeds 4, reports cap exhaustion as a normal partial result after exactly
20 iterations rather than an exception, and its only abnormal exit is the
missing-location error a plan can provoke by overloading a connection key
that names no location. -/
theorem improve_world_design_cap_spec (wd : Improver.WorldDesign)
    (plans : Nat → Improver.LocationImprovementPlan)
    (chooseMiss chooseRe : String → List String → String) :
    match Improver.improve_world_design wd plans chooseMiss chooseRe with
    | .success sc _ iterations =>
        iterations ≤ Improver.max_iterations ∧
        ∀ p ∈ sc.location_connections, p.2.length ≤ 4
    | .capped _ _ iterations => iterations = Improver.max_iterations
    | .failed msg =>
        ∃ loc, msg = "Location with ID " ++ loc ++ " not found in world components" := by
  rw [Improver.improve_world_design]
  exact improveLoop_invariant plans chooseMiss chooseRe Improver.max_iterations 0 _ _

/-! ## Claim C7 — split repair coverage lemmas -/

theorem mem_dset_of_ne {α : Type} {d : Dict α} {p : String × α} {k : String} (v : α)
    (hp : p ∈ d) (hne : p.1 ≠ k) : p ∈ dset d k v := by
  induction d with
  | nil => simp at hp
  | cons q rest ih =>
    obtain ⟨a, b⟩ := q
    rcases List.mem_cons.mp hp with rfl | hp2
    · rw [dset]
      rw [if_neg (fun hh : a = k => hne hh)]
      exact List.mem_cons_self _ _
    · by_cases ha : a = k
      · rw [dset, if_pos ha]
        exact List.mem_cons_of_mem _ hp2
      · rw [dset, if_neg ha]
        exact List.mem_cons_of_mem _ (ih hp2)

theorem chooseHead_mem (s : String) (l : List String) (h : l ≠ []) :
    chooseHead s l ∈ l := by
  cases l with
  | nil => exact absurd rfl h
  | cons a rest => simp [chooseHead]

theorem attachedToNew_mono {c c2 : Dict (List String)} {ids : List String}
    {conn : String} (h : DContains c c2) (ha : attachedToNew c ids conn) :
    attachedToNew c2 ids conn := by
  obtain ⟨nid, hnid, hor⟩ := ha
  refine ⟨nid, hnid, ?_⟩
  rcases hor with hm | hm
  · exact Or.inl (h _ _ hm)
  · exact Or.inr (h _ _ hm)

namespace Improver

theorem plannedConn_dinit (ids : List String) (u : Dict (List String))
    (conn k : String) (h : plannedConn ids u conn) :
    plannedConn ids (dinit u k) conn := by
  rcases h with ⟨sid, hsid, hconn⟩ | ⟨p, hp, hp1, hp2, d0, hd0, hd0i⟩
  · exact Or.inl ⟨sid, hsid, dcontains_dinit u k sid conn hconn⟩
  · refine Or.inr ⟨p, ?_, hp1, hp2, d0, hd0, hd0i⟩
    rw [dinit]
    by_cases hm : dmem u k
    · rw [if_pos hm]; exact hp
    · rw [if_neg hm]; exact List.mem_append_left _ hp

theorem plannedConn_dconnect (ids : List String) (u : Dict (List String))
    (conn k v : String) (hk : k ∈ ids) (h : plannedConn ids u conn) :
    plannedConn ids (dconnect u k v) conn := by
  rcases h with ⟨sid, hsid, hconn⟩ | ⟨p, hp, hp1, hp2, d0, hd0, hd0i⟩
  · exact Or.inl ⟨sid, hsid, dcontains_dconnect u k v sid conn hconn⟩
  · refine Or.inr ⟨p, ?_, hp1, hp2, d0, hd0, hd0i⟩
    rw [dconnect]
    by_cases hm : v ∈ dgetD u k []
    · rw [if_pos hm]; exact hp
    · rw [if_neg hm]
      exact mem_dset_of_ne _ hp (fun hh => hp2 (hh ▸ hk))

theorem plannedConn_assignMissing (ids : List String)
    (cm : String → List String → String) (hcm : ∀ s l, l ≠ [] → cm s l ∈ l)
    (hids : ids ≠ []) (u : Dict (List String)) (conn m : String)
    (h : plannedConn ids u conn) :
    plannedConn ids (assignMissing ids cm u m) conn := by
  rw [assignMissing]
  exact plannedConn_dconnect ids _ conn _ m (hcm m ids hids)
    (plannedConn_dinit ids u conn _ h)

theorem plannedConn_assignMissing_self (ids : List String)
    (cm : String → List String → String) (hcm : ∀ s l, l ≠ [] → cm s l ∈ l)
    (hids : ids ≠ []) (u : Dict (List String)) (m : String) :
    plannedConn ids (assignMissing ids cm u m) m := by
  rw [assignMissing]
  exact Or.inl ⟨cm m ids, hcm m ids hids, mem_dconnect_self _ _ m⟩

theorem assignFold_covers (ids : List String)
    (cm : String → List String → String) (hcm : ∀ s l, l ≠ [] → cm s l ∈ l)
    (hids : ids ≠ []) :
    ∀ (ms : List String) (u : Dict (List String)) (conn : String),
      (conn ∈ ms ∨ plannedConn ids u conn) →
      plannedConn ids (ms.foldl (assignMissing ids cm) u) conn := by
  intro ms
  induction ms with
  | nil =>
    intro u conn h
    rcases h with h | h
    · simp at h
    · exact h
  | cons m rest ih =>
    intro u conn h
    rw [List.foldl_cons]
    rcases h with h | h
    · rcases List.mem_cons.mp h with rfl | h2
      · exact ih _ conn (Or.inr (plannedConn_assignMissing_self ids cm hcm hids u conn))
      · exact ih _ conn (Or.inl h2)
    · exact ih _ conn (Or.inr (plannedConn_assignMissing ids cm hcm hids u conn m h))

theorem plannedConn_dinit_fold (ids : List String) (u : Dict (List String))
    (conn : String) (h : plannedConn ids u conn) :
    ∀ (ks : List String), plannedConn ids (ks.foldl dinit u) conn := by
  have aux : ∀ (ks : List String) (u0 : Dict (List String)),
      plannedConn ids u0 conn → plannedConn ids (ks.foldl dinit u0) conn := by
    intro ks
    induction ks with
    | nil => intro u0 h0; exact h0
    | cons k rest ih =>
      intro u0 h0
      rw [List.foldl_cons]
      exact ih _ (plannedConn_dinit ids u0 conn k h0)
  intro ks
  exact aux ks u h

/-- Every original connection of the removed location is planned — as an
outgoing destination of a new location or an incoming source pointing at
one — in the repaired connection map `handle_missing_connections`
returns. -/
theorem handle_missing_covers (new_locations : List LocationDescription)
    (u : Dict (List String)) (orig : List String)
    (cm : String → List String → String) (hcm : ∀ s l, l ≠ [] → cm s l ∈ l)
    (hne : new_locations ≠ []) :
    ∀ conn ∈ orig,
      plannedConn (new_locations.map (fun loc => loc.id))
        (handle_missing_connections new_locations u orig cm) conn := by
  intro conn hconn
  have hids : new_locations.map (fun loc => loc.id) ≠ [] := by
    cases new_locations with
    | nil => exact absurd rfl hne
    | cons a rest => simp
  rw [handle_missing_connections]
  by_cases hempty : (orig.filter (fun c =>
      decide (¬ plannedConn (new_locations.map (fun loc => loc.id)) u c))).isEmpty
  · rw [if_pos hempty]
    rw [List.isEmpty_iff] at hempty
    by_cases hpl : plannedConn (new_locations.map (fun loc => loc.id)) u conn
    · exact hpl
    · exfalso
      have : conn ∈ orig.filter (fun c =>
          decide (¬ plannedConn (new_locations.map (fun loc => loc.id)) u c)) :=
        List.mem_filter.mpr ⟨hconn, by simpa using hpl⟩
      rw [hempty] at this
      simp at this
  · rw [if_neg hempty]
    by_cases hpl : plannedConn (new_locations.map (fun loc => loc.id)) u conn
    · exact assignFold_covers _ cm hcm hids _ _ conn
        (Or.inr (plannedConn_dinit_fold _ u conn hpl _))
    · refine assignFold_covers _ cm hcm hids _ _ conn (Or.inl ?_)
      exact List.mem_filter.mpr ⟨hconn, by simpa using hpl⟩

end Improver

theorem mem_dset_self {α : Type} (d : Dict α) (k : String) (v : α) :
    (k, v) ∈ dset d k v := by
  induction d with
  | nil => simp [dset]
  | cons q rest ih =>
    obtain ⟨a, b⟩ := q
    by_cases ha : a = k
    · rw [dset, if_pos ha]
      exact List.mem_cons_self _ _
    · rw [dset, if_neg ha]
      exact List.mem_cons_of_mem _ ih

namespace Improver

theorem nodup_dkeys_dinit (c : Dict (List String)) (k : String)
    (h : (dkeys c).Nodup) : (dkeys (dinit c k)).Nodup := by
  rw [dinit]
  by_cases hm : dmem c k
  · rw [if_pos hm]
    exact h
  · rw [if_neg hm]
    rw [dkeys, List.map_append]
    rw [List.nodup_append]
    refine ⟨h, by simp, ?_⟩
    intro x hx
    simp only [List.map_cons, List.map_nil, List.mem_singleton]
    intro hxk
    subst hxk
    exact hm ((dmem_iff c x).mpr (by rw [dkeys]; exact hx))

theorem nodup_dkeys_dconnect (c : Dict (List String)) (k v : String)
    (h : (dkeys c).Nodup) : (dkeys (dconnect c k v)).Nodup := by
  rw [dconnect]
  by_cases hm : v ∈ dgetD c k []
  · rw [if_pos hm]
    exact h
  · rw [if_neg hm]
    by_cases hk : k ∈ dkeys c
    · rw [dkeys_dset_of_mem _ _ _ hk]
      exact h
    · rw [dset_eq_append_of_not_mem _ _ _ hk, dkeys, List.map_append, List.nodup_append]
      refine ⟨h, by simp, ?_⟩
      intro x hx
      simp only [List.map_cons, List.map_nil, List.mem_singleton]
      intro hxk
      subst hxk
      exact hk hx

theorem nodup_dkeys_assignMissing (ids : List String)
    (cm : String → List String → String) (u : Dict (List String)) (m : String)
    (h : (dkeys u).Nodup) : (dkeys (assignMissing ids cm u m)).Nodup := by
  rw [assignMissing]
  exact nodup_dkeys_dconnect _ _ _ (nodup_dkeys_dinit _ _ h)

theorem nodup_dkeys_handle_missing (new_locations : List LocationDescription)
    (u : Dict (List String)) (orig : List String)
    (cm : String → List String → String) (h : (dkeys u).Nodup) :
    (dkeys (handle_missing_connections new_locations u orig cm)).Nodup := by
  rw [handle_missing_connections]
  by_cases hempty : (orig.filter (fun c =>
      decide (¬ plannedConn (new_locations.map (fun loc => loc.id)) u c))).isEmpty
  · rw [if_pos hempty]
    exact h
  · rw [if_neg hempty]
    have hinit : ∀ (ks : List String) (u0 : Dict (List String)),
        (dkeys u0).Nodup → (dkeys (ks.foldl dinit u0)).Nodup := by
      intro ks
      induction ks with
      | nil => intro u0 h0; exact h0
      | cons k rest ih =>
        intro u0 h0
        rw [List.foldl_cons]
        exact ih _ (nodup_dkeys_dinit _ _ h0)
    have hassign : ∀ (ms : List String) (u0 : Dict (List String)),
        (dkeys u0).Nodup →
        (dkeys (ms.foldl (assignMissing (new_locations.map (fun loc => loc.id)) cm) u0)).Nodup := by
      intro ms
      induction ms with
      | nil => intro u0 h0; exact h0
      | cons m rest ih =>
        intro u0 h0
        rw [List.foldl_cons]
        exact ih _ (nodup_dkeys_assignMissing _ cm _ _ h0)
    exact hassign _ _ (hinit _ _ h)

theorem foldl_dset_getD_not_mem (m : Dict (List String)) :
    ∀ (c : Dict (List String)) (k : String), k ∉ dkeys m →
      dgetD (m.foldl (fun c p => dset c p.1 p.2) c) k [] = dgetD c k [] := by
  induction m with
  | nil =>
    intro c k _
    rfl
  | cons q rest ih =>
    intro c k hk
    obtain ⟨a, b⟩ := q
    rw [dkeys_cons, List.mem_cons, not_or] at hk
    rw [List.foldl_cons, ih _ _ hk.2]
    exact dgetD_dset_ne _ _ _ _ _ hk.1

theorem foldl_dset_getD (u2 : Dict (List String)) (hnd : (dkeys u2).Nodup) :
    ∀ (c : Dict (List String)) (k : String) (v : List String), (k, v) ∈ u2 →
      dgetD (u2.foldl (fun c p => dset c p.1 p.2) c) k [] = v := by
  induction u2 with
  | nil =>
    intro c k v hkv
    simp at hkv
  | cons p rest ih =>
    intro c k v hkv
    obtain ⟨a, b⟩ := p
    rw [dkeys_cons, List.nodup_cons] at hnd
    rw [List.foldl_cons]
    rcases List.mem_cons.mp hkv with heq | hmem
    · cases heq
      rw [foldl_dset_getD_not_mem rest _ _ hnd.1, dgetD_dset_self]
    · exact ih hnd.2 _ k v hmem

theorem planned_attached (ids : List String) (u2 : Dict (List String))
    (conn : String) (hnd : (dkeys u2).Nodup) (hpl : plannedConn ids u2 conn)
    (c : Dict (List String)) :
    attachedToNew (u2.foldl (fun c p => dset c p.1 p.2) c) ids conn := by
  rcases hpl with ⟨sid, hsid, hconn⟩ | ⟨p, hp, hp1, _, d0, hd0, hd0i⟩
  · cases hl : dlookup u2 sid with
    | none =>
      rw [dgetD, hl] at hconn
      simp at hconn
    | some v =>
      rw [dgetD, hl] at hconn
      simp only [Option.getD_some] at hconn
      have hmem := dlookup_mem hl
      have hval := foldl_dset_getD u2 hnd c sid v hmem
      exact ⟨sid, hsid, Or.inl (by rw [hval]; exact hconn)⟩
  · have hval := foldl_dset_getD u2 hnd c p.1 p.2 hp
    refine ⟨d0, hd0i, Or.inr ?_⟩
    have hc : conn = p.1 := hp1.symm
    rw [hc, hval]
    exact hd0

end Improver

namespace Improver

theorem dcontains_interconnectTwo (c : Dict (List String)) (ids : List String) :
    DContains c (interconnectTwo c ids) := by
  rcases ids with _ | ⟨a, _ | ⟨b, _ | ⟨x, rest⟩⟩⟩
  · exact dcontains_refl c
  · exact dcontains_refl c
  · exact dcontains_ensureBidi c a b
  · exact dcontains_refl c

theorem partnerOrRandom_mem (ids : List String) (u : Dict (List String))
    (cr : String → List String → String) (loc : String)
    (hcr : ∀ s l, l ≠ [] → cr s l ∈ l) (hids : ids ≠ []) :
    partnerOrRandom ids u cr loc ∈ ids := by
  rw [partnerOrRandom]
  cases hp : plannedPartner ids u loc with
  | some nid =>
    rw [plannedPartner] at hp
    exact List.mem_of_find?_eq_some hp
  | none => exact hcr loc ids hids

theorem dcontains_reconnect (ids : List String) (u : Dict (List String))
    (cr : String → List String → String) (l : List String)
    (c : Dict (List String)) :
    DContains c (l.foldl
      (fun c loc_id => ensureBidi c (partnerOrRandom ids u cr loc_id) loc_id) c) :=
  dcontains_foldl _ (fun c2 x => dcontains_ensureBidi c2 _ x) l c

theorem dcontains_finalPass (ks : List String) (c : Dict (List String)) :
    DContains c (ks.foldl
      (fun c source_id =>
        (dgetD c source_id []).foldl
          (fun c2 dest_id => ensureBidi c2 source_id dest_id) c) c) :=
  dcontains_foldl _
    (fun c2 k => dcontains_foldl _ (fun c3 d => dcontains_ensureBidi c3 k d) _ c2) ks c

theorem reconnect_attaches (ids : List String) (u : Dict (List String))
    (cr : String → List String → String) (hcr : ∀ s l, l ≠ [] → cr s l ∈ l)
    (hids : ids ≠ []) :
    ∀ (orphans : List String) (c : Dict (List String)), ∀ o ∈ orphans,
      attachedToNew
        (orphans.foldl
          (fun c loc_id => ensureBidi c (partnerOrRandom ids u cr loc_id) loc_id) c)
        ids o := by
  intro orphans
  induction orphans with
  | nil =>
    intro c o ho
    simp at ho
  | cons o0 rest ih =>
    intro c o ho
    rw [List.foldl_cons]
    rcases List.mem_cons.mp ho with rfl | ho2
    · have hatt : attachedToNew (ensureBidi c (partnerOrRandom ids u cr o) o) ids o :=
        ⟨partnerOrRandom ids u cr o, partnerOrRandom_mem ids u cr o hcr hids,
          Or.inl (mem_ensureBidi_source c _ o)⟩
      exact attachedToNew_mono
        (dcontains_foldl _ (fun c2 x => dcontains_ensureBidi c2 _ x) rest _) hatt
    · exact ih _ o ho2

/-- Both halves of the attachment property of
`add_new_locations_and_connections`: every connection planned in the
(repaired) connection map, and every orphaned neighbor handed to the
reconnection loop, is attached to at least one new location in the
resulting components. -/
theorem add_new_attaches (components : StoryWorldComponents)
    (new_locations : List LocationDescription) (u : Dict (List String))
    (reconnect : List String) (cr : String → List String → String)
    (hcr : ∀ s l, l ≠ [] → cr s l ∈ l) (hne : new_locations ≠ [])
    (hnd : (dkeys u).Nodup) :
    (∀ conn, plannedConn (new_locations.map (fun loc => loc.id)) u conn →
      attachedToNew
        (add_new_locations_and_connections components new_locations u reconnect
          cr).location_connections
        (new_locations.map (fun loc => loc.id)) conn) ∧
    (∀ o ∈ reconnect,
      attachedToNew
        (add_new_locations_and_connections components new_locations u reconnect
          cr).location_connections
        (new_locations.map (fun loc => loc.id)) o) := by
  have hids : new_locations.map (fun loc => loc.id) ≠ [] := by
    cases new_locations with
    | nil => exact absurd rfl hne
    | cons a rest => simp
  rw [add_new_locations_and_connections]
  dsimp only
  constructor
  · intro conn hpl
    exact attachedToNew_mono (dcontains_finalPass _ _)
      (attachedToNew_mono (dcontains_reconnect _ _ _ _ _)
        (attachedToNew_mono (dcontains_interconnectTwo _ _)
          (planned_attached _ u conn hnd hpl _)))
  · intro o ho
    exact attachedToNew_mono (dcontains_finalPass _ _)
      (reconnect_attaches _ u cr hcr hids reconnect _ o ho)

end Improver

namespace Improver

theorem apply_improvement_plan_fst (sc : StoryWorldComponents)
    (location_id : String) (st : Option String)
    (plan : LocationImprovementPlan)
    (cm cr : String → List String → String)
    (hne : plan.new_locations ≠ []) :
    (apply_improvement_plan sc location_id st plan cm cr).1 =
      add_new_locations_and_connections
        (remove_old_location_and_connections sc location_id).1
        plan.new_locations
        (handle_missing_connections plan.new_locations plan.updated_connections
          (dgetD sc.location_connections location_id []) cm)
        (remove_old_location_and_connections sc location_id).2 cr := by
  rw [apply_improvement_plan]
  cases hplan : plan.new_locations with
  | nil => exact absurd hplan hne
  | cons first restLocs => rfl

end Improver

/-! ## Claim C7 — split repair -/

/-- C7 counterexample: splitting the overloaded hub with a plan that
attaches the neighbor `a` to both replacement locations leaves `a`
connected to both `n1` and `n2` — an original connection attached to two
new locations, not exactly one. -/
theorem split_neighbor_attached_to_two_new_locations :
    "n1" ∈ dgetD planBothResult.location_connections "a" [] ∧
    "n2" ∈ dgetD planBothResult.location_connections "a" [] ∧
    "a" ∈ dgetD hubComponents.location_connections "hub" [] := by
  decide

/-- C7 (amended): for every split applied through
`apply_improvement_plan` (two-location plans, as
`improve_single_location_and_apply` enforces), every original outgoing
connection of the removed location and every orphaned neighbor ends up
attached to AT LEAST one new location in the resulting connection map —
the repair of `handle_missing_connections` and the reconnection loop
ensure no original connection is dropped; a plan may attach a neighbor to
several new locations, so exactly-one does not hold in general. -/
theorem split_no_connection_dropped (sc : Improver.StoryWorldComponents)
    (location_id : String) (st : Option String)
    (plan : Improver.LocationImprovementPlan)
    (cm cr : String → List String → String)
    (hcm : ∀ s l, l ≠ [] → cm s l ∈ l)
    (hcr : ∀ s l, l ≠ [] → cr s l ∈ l)
    (hne : plan.new_locations ≠ [])
    (hnd : (dkeys plan.updated_connections).Nodup) :
    (∀ conn ∈ dgetD sc.location_connections location_id [],
      attachedToNew
        (Improver.apply_improvement_plan sc location_id st plan cm cr).1.location_connections
        (plan.new_locations.map (fun loc => loc.id)) conn) ∧
    (∀ orphan ∈ (Improver.remove_old_location_and_connections sc location_id).2,
      attachedToNew
        (Improver.apply_improvement_plan sc location_id st plan cm cr).1.location_connections
        (plan.new_locations.map (fun loc => loc.id)) orphan) := by
  rw [Improver.apply_improvement_plan_fst sc location_id st plan cm cr hne]
  have hadd := Improver.add_new_attaches
    (Improver.remove_old_location_and_connections sc location_id).1
    plan.new_locations
    (Improver.handle_missing_connections plan.new_locations plan.updated_connections
      (dgetD sc.location_connections location_id []) cm)
    (Improver.remove_old_location_and_connections sc location_id).2 cr hcr hne
    (Improver.nodup_dkeys_handle_missing plan.new_locations plan.updated_connections
      (dgetD sc.location_connections location_id []) cm hnd)
  constructor
  · intro conn hconn
    exact hadd.1 conn
      (Improver.handle_missing_covers plan.new_locations plan.updated_connections
        (dgetD sc.location_connections location_id []) cm hcm hne conn hconn)
  · intro orphan horphan
    exact hadd.2 orphan horphan

/-- C7 witness: on the concrete overloaded hub split by the two-location
plan covering only the neighbor `a`, the theorem certifies that the
neighbor `b` — absent from the plan and repaired by random assignment —
is attached to a new location. -/
theorem split_no_connection_dropped_witness :
    attachedToNew
      (Improver.apply_improvement_plan hubComponents "hub" none planTwo
        chooseHead chooseHead).1.location_connections
      (planTwo.new_locations.map (fun loc => loc.id)) "b" :=
  (split_no_connection_dropped hubComponents "hub" none planTwo
    chooseHead chooseHead chooseHead_mem chooseHead_mem (by decide) (by decide)).1
    "b" (by decide)
